import Mathlib

set_option maxRecDepth 100000

/-!
Verification of the task-annotation parser, Eisenhower classifier,
accumulated-counter mutations and habit-streak state machine of the
Obsidian task-priority plugin (src/unnamed/part_002).

Modelling conventions:
  * one source line is a `List Char` (named `Chars` below); a document is a
    `List Chars`;
  * a JavaScript regex `X.exec(line)` that captures one group is modelled by
    a position-scanner `findSplit m line` where `m` matches the full pattern
    at the head of a suffix and returns (capture, rest-after-match);
    `findSplit` returns (text-before-match, capture, rest-after-match) for
    the leftmost position at which `m` succeeds, `none` when no position
    matches — exactly the leftmost-match semantics of `exec`;
  * case-insensitive (`/i`) literal matching lowercases both sides over
    ASCII (`lowN`), as `toLowerCase` does for the ASCII letters that occur
    in the patterns;
  * a value of TypeScript type `string | undefined` is an `Option Chars`;
    the JS truthiness test `!x` on such a value is `jsFalsyOptStr` (true
    for `undefined` and for the empty string);
  * fallible operations (mutations that can abort with a user notification
    and no write) return `Option` of the new document; `none` means the
    operation reported a notice and left the document unchanged;
  * the emoji glyphs are kept as the exact three-character sequences the
    source file holds for them (the repository file stores each emoji as a
    multi-character sequence; only identity and non-ASCII-ness of these
    markers matter to every property below).
-/

abbrev Chars := List Char

def toL (s : String) : Chars := s.toList

/-- Character class of a decimal digit, the regex class d. -/
def isDigitCh (c : Char) : Bool := decide (48 ≤ c.toNat ∧ c.toNat ≤ 57)

/-- Character class of whitespace, the regex class s (ASCII part: space, tab,
newline, vertical tab, form feed, carriage return). -/
def isWsCh (c : Char) : Bool :=
  decide (c.toNat = 32 ∨ c.toNat = 9 ∨ c.toNat = 10 ∨ c.toNat = 11 ∨ c.toNat = 12 ∨ c.toNat = 13)

/-- ASCII lowercasing on code points, what toLowerCase does to the ASCII
letters appearing in the patterns. -/
def lowN (n : Nat) : Nat := if 65 ≤ n ∧ n ≤ 90 then n + 32 else n

/-- Character comparison, case-insensitive when `ci` is true (regex /i). -/
def chEq (ci : Bool) (p c : Char) : Bool :=
  if ci then lowN p.toNat == lowN c.toNat else p == c

/-- Match the literal `p` at the head of `s` (char comparison `chEq ci`);
returns the rest of `s` after the literal. -/
def matchLitB (ci : Bool) : Chars → Chars → Option Chars
  | [], s => some s
  | _ :: _, [] => none
  | p :: ps, c :: cs => if chEq ci p c then matchLitB ci ps cs else none

def startsWithL (p s : Chars) : Bool := (matchLitB false p s).isSome

/-- Containment of the literal `p` anywhere in the string (JS `includes` /
regex `.test` of a literal pattern). -/
def containsSeq (p : Chars) : Chars → Bool
  | [] => (matchLitB false p []).isSome
  | c :: t => (matchLitB false p (c :: t)).isSome || containsSeq p t

/-- Pointwise equality of two strings of the same length under the
comparison `chEq ci` (case-insensitive when `ci`). -/
def seqMatch (ci : Bool) : Chars → Chars → Bool
  | [], [] => true
  | p :: ps, c :: cs => chEq ci p c && seqMatch ci ps cs
  | _, _ => false

/-- Greedy run of digits at the head of the string (regex d+ / d*). -/
def takeDigits : Chars → Chars × Chars
  | [] => ([], [])
  | c :: t =>
    if isDigitCh c then
      let p := takeDigits t
      (c :: p.1, p.2)
    else ([], c :: t)

/-- Exactly `n` digits at the head of the string (regex d with a fixed
counted quantifier). -/
def takeNDigits : Nat → Chars → Option (Chars × Chars)
  | 0, s => some ([], s)
  | _ + 1, [] => none
  | n + 1, c :: t =>
    if isDigitCh c then (takeNDigits n t).map fun p => (c :: p.1, p.2) else none

/-- Leftmost-match scan: try the at-position matcher `m` at every position
left to right; return (before, capture, after) of the first success. -/
def findSplit (m : Chars → Option (α × Chars)) : Chars → Option (Chars × α × Chars)
  | [] => none
  | c :: t =>
    match m (c :: t) with
    | some (v, r) => some ([], v, r)
    | none => (findSplit m t).map fun p => (c :: p.1, p.2.1, p.2.2)

/-- JS String.prototype.trim / trimEnd over the whitespace class above. -/
def trimEndL (l : Chars) : Chars := (l.reverse.dropWhile isWsCh).reverse

def trimStartL (l : Chars) : Chars := l.dropWhile isWsCh

def trimL (l : Chars) : Chars := trimEndL (trimStartL l)

/-- Replace the first occurrence of the literal `p` by `r` (JS
String.prototype.replace with a string pattern); unchanged when absent. -/
def replaceFirstSeq (p r : Chars) : Chars → Chars
  | [] => []
  | c :: t =>
    match matchLitB false p (c :: t) with
    | some rest => r ++ rest
    | none => c :: replaceFirstSeq p r t

/-- One pass of replace-all-with-empty-string (a JS `replace(/.../g, '')`):
at each position, if the matcher succeeds the matched region is dropped and
scanning resumes after it, else the character is kept. Fuel-driven; called
with fuel = length, enough since a successful match consumes at least the
position's first character. -/
def stripAll (m : Chars → Option (α × Chars)) : Nat → Chars → Chars
  | 0, l => l
  | _ + 1, [] => []
  | fuel + 1, c :: t =>
    match m (c :: t) with
    | some (_, rest) => stripAll m fuel rest
    | none => c :: stripAll m fuel t

def stripAllPat (m : Chars → Option (α × Chars)) (l : Chars) : Chars :=
  stripAll m l.length l

/-- Decimal rendering of a Nat, as JS template interpolation of a
non-negative number renders it. -/
def digitCh (n : Nat) : Char :=
  match n % 10 with
  | 0 => '0' | 1 => '1' | 2 => '2' | 3 => '3' | 4 => '4'
  | 5 => '5' | 6 => '6' | 7 => '7' | 8 => '8' | _ => '9'

def natDigits (n : Nat) : Chars :=
  if _h : n < 10 then [digitCh n] else natDigits (n / 10) ++ [digitCh n]
decreasing_by exact Nat.div_lt_self (by omega) (by omega)

/-- JS parseInt on a string of decimal digits. -/
def parseIntDigits (l : Chars) : Nat := l.foldl (fun a c => 10 * a + (c.toNat - 48)) 0

/-- JS parseInt on an optionally minus-signed string of decimal digits. -/
def parseIntSigned (l : Chars) : Int :=
  match l with
  | '-' :: ds => -(parseIntDigits ds : Int)
  | _ => (parseIntDigits l : Int)

/-! The emoji marker sequences, exactly as the three-character sequences the
source file stores for each glyph (urgency fire, importance star, habit
repeat, accumulated coin, duration/scheduled hourglass, start-date plus). -/

def fireEmoji : Chars := [Char.ofNat 0xFC, Char.ofNat 0xEE, Char.ofNat 0x2022]
def starEmoji : Chars := [Char.ofNat 0x201A, Char.ofNat 0x2260, Char.ofNat 0xEA]
def habitEmoji : Chars := [Char.ofNat 0xFC, Char.ofNat 0xEE, Char.ofNat 0xC5]
def coinEmoji : Chars := [Char.ofNat 0xFC, Char.ofNat 0x2122, Char.ofNat 0xF4]
def timerEmoji : Chars := [Char.ofNat 0x201A, Char.ofNat 0xE8, Char.ofNat 0x2265]
def plusEmoji : Chars := [Char.ofNat 0x201A, Char.ofNat 0xFB, Char.ofNat 0xEF]

/-! At-position matchers for each annotation pattern of `parseTask` and the
mutation helpers. Each models the respective regex of the source, matching
the full pattern at the head of a suffix. -/

/-- Shared numeric tail of the counter patterns: an optional minus sign when
`sg` (the regex wrote -?), one or more digits, then a closing bracket.
Returns (signed digit string, rest after the bracket). -/
def numClose (r : Chars) : Option (Chars × Chars) :=
  let p := takeDigits r
  if p.1.isEmpty then none
  else
    match p.2 with
    | ']' :: rest => some (p.1, rest)
    | _ => none

def matchNumTail (sg : Bool) (r : Chars) : Option (Chars × Chars) :=
  match sg, r with
  | true, '-' :: r2 => (numClose r2).map fun p => ('-' :: p.1, p.2)
  | _, _ => numClose r

/-- Shape of a counter capture group: one or more digits, preceded by a
minus sign only when the pattern was signed (`sg`). -/
def validNum (sg : Bool) (v : Chars) : Bool :=
  match sg, v with
  | true, '-' :: ds => !ds.isEmpty && ds.all isDigitCh
  | _, _ => !v.isEmpty && v.all isDigitCh

/-- Literal head of the success-counter tag. -/
def successLit : Chars := toL "[success::"

/-- The canonical success tag around a signed digit string, what the
mutation code writes back. -/
def sTag (v : Chars) : Chars := successLit ++ v ++ [']']

/-- Pattern of the success annotation, signed for the parser's regex, and
unsigned for the mutation code's regexes; case-insensitive key (/i). -/
def matchSuccessAt (sg : Bool) (s : Chars) : Option (Chars × Chars) :=
  (matchLitB true successLit s).bind (matchNumTail sg)

/-- Pattern of the legacy trailing counter: a bracketed number followed by
nothing but whitespace up to the end of the line (the regex was
end-anchored with a trailing whitespace-star, so a successful match always
consumes the whole rest of the line; the after-part is empty). -/
def matchTrailAt (sg : Bool) (s : Chars) : Option (Chars × Chars) :=
  match s with
  | '[' :: t =>
    (matchNumTail sg t).bind fun p =>
      if p.2.all isWsCh then some (p.1, ([] : Chars)) else none
  | _ => none

def successCapture (sg : Bool) (l : Chars) : Option Chars :=
  (findSplit (matchSuccessAt sg) l).map fun p => p.2.1

def trailCapture (sg : Bool) (l : Chars) : Option Chars :=
  (findSplit (matchTrailAt sg) l).map fun p => p.2.1

/-- Counter value the parser reads: the first signed success annotation,
else the signed trailing bracket count. -/
def rawAccumCount (l : Chars) : Option Int :=
  match successCapture true l with
  | some v => some (parseIntSigned v)
  | none => (trailCapture true l).map parseIntSigned

inductive Level
  | high
  | low
deriving DecidableEq, Repr

inductive HabitType
  | daily
  | weekly
deriving DecidableEq, Repr

inductive TaskType
  | repeatedDaily
  | scheduled
  | regular
deriving DecidableEq, Repr

/-- Bracket tag with an enumerated high/low value and optional whitespace
after the key, case-insensitively. -/
def matchLevelTagAt (key : Chars) (s : Chars) : Option (Level × Chars) :=
  (matchLitB true ('[' :: key ++ toL "::") s).bind fun r =>
    let r1 := r.dropWhile isWsCh
    match matchLitB true (toL "high]") r1 with
    | some rest => some (Level.high, rest)
    | none =>
      match matchLitB true (toL "low]") r1 with
      | some rest => some (Level.low, rest)
      | none => none

def matchImportanceAt (s : Chars) : Option (Level × Chars) :=
  matchLevelTagAt (toL "importance") s

def matchUrgencyAt (s : Chars) : Option (Level × Chars) :=
  matchLevelTagAt (toL "urgency") s

def matchDurBrAt (s : Chars) : Option (Chars × Chars) :=
  (matchLitB true (toL "[duration::") s).bind fun r =>
    let r1 := r.dropWhile isWsCh
    let p := takeDigits r1
    if p.1.isEmpty then none
    else
      match p.2 with
      | ']' :: rest => some (p.1, rest)
      | _ => none

def matchHabitAt (s : Chars) : Option (HabitType × Chars) :=
  (matchLitB true (toL "[habit::") s).bind fun r =>
    let r1 := r.dropWhile isWsCh
    match matchLitB true (toL "daily]") r1 with
    | some rest => some (HabitType.daily, rest)
    | none =>
      match matchLitB true (toL "weekly]") r1 with
      | some rest => some (HabitType.weekly, rest)
      | none => none

def matchAccumAt (s : Chars) : Option (Unit × Chars) :=
  (matchLitB true (toL "[accumulated::") s).bind fun r =>
    let r1 := r.dropWhile isWsCh
    (matchLitB true (toL "true]") r1).map fun rest => ((), rest)

/-- Strict YYYY-MM-DD date literal; returns the ten captured characters. -/
def matchDateAt (s : Chars) : Option (Chars × Chars) :=
  (takeNDigits 4 s).bind fun y =>
    match y.2 with
    | '-' :: r2 =>
      (takeNDigits 2 r2).bind fun mo =>
        match mo.2 with
        | '-' :: r4 =>
          (takeNDigits 2 r4).map fun d => (y.1 ++ '-' :: mo.1 ++ '-' :: d.1, d.2)
        | _ => none
    | _ => none

/-- Bracket tag holding a bare number, no whitespace tolerated (the streak
and max-streak patterns); `ci` selects /i. -/
def matchKeyNatAt (ci : Bool) (key : Chars) (s : Chars) : Option (Chars × Chars) :=
  (matchLitB ci ('[' :: key ++ toL "::") s).bind fun r =>
    let p := takeDigits r
    if p.1.isEmpty then none
    else
      match p.2 with
      | ']' :: rest => some (p.1, rest)
      | _ => none

/-- Bracket tag holding a strict date (last-done, last-streak-date). -/
def matchKeyDateAt (ci : Bool) (key : Chars) (s : Chars) : Option (Chars × Chars) :=
  (matchLitB ci ('[' :: key ++ toL "::") s).bind fun r =>
    (matchDateAt r).bind fun p =>
      match p.2 with
      | ']' :: rest => some (p.1, rest)
      | _ => none

/-- Duration shorthand: hourglass glyph immediately followed by digits. -/
def matchTimerNumAt (s : Chars) : Option (Chars × Chars) :=
  (matchLitB false timerEmoji s).bind fun r =>
    let p := takeDigits r
    if p.1.isEmpty then none else some (p.1, p.2)

/-- Scheduled date: hourglass glyph, optional whitespace, strict date. -/
def matchTimerDateAt (s : Chars) : Option (Chars × Chars) :=
  (matchLitB false timerEmoji s).bind fun r => matchDateAt (r.dropWhile isWsCh)

/-- Start date: plus glyph, optional whitespace, strict date. -/
def matchPlusDateAt (s : Chars) : Option (Chars × Chars) :=
  (matchLitB false plusEmoji s).bind fun r => matchDateAt (r.dropWhile isWsCh)

/-- Attribute tag: a non-empty run of characters that are neither a closing
bracket nor whitespace, then the closing bracket. -/
def matchAttrAt (s : Chars) : Option (Chars × Chars) :=
  (matchLitB true (toL "[attribute::") s).bind fun r =>
    let r1 := r.dropWhile isWsCh
    let nm := r1.takeWhile fun c => !(c == ']' || isWsCh c)
    if nm.isEmpty then none
    else
      match r1.drop nm.length with
      | ']' :: rest => some (nm, rest)
      | _ => none

def importanceOf (l : Chars) : Option Level :=
  (findSplit matchImportanceAt l).map fun p => p.2.1

def urgencyOf (l : Chars) : Option Level :=
  (findSplit matchUrgencyAt l).map fun p => p.2.1

def durationBrOf (l : Chars) : Option Chars :=
  (findSplit matchDurBrAt l).map fun p => p.2.1

def habitBrOf (l : Chars) : Option HabitType :=
  (findSplit matchHabitAt l).map fun p => p.2.1

def accumBrTest (l : Chars) : Bool := (findSplit matchAccumAt l).isSome

def lastDoneOf (l : Chars) : Option Chars :=
  (findSplit (matchKeyDateAt true (toL "last-done")) l).map fun p => p.2.1

def streakCapOf (l : Chars) : Option Chars :=
  (findSplit (matchKeyNatAt true (toL "streak")) l).map fun p => p.2.1

def maxStreakCapOf (l : Chars) : Option Chars :=
  (findSplit (matchKeyNatAt true (toL "max-streak")) l).map fun p => p.2.1

def lastStreakDateOf (l : Chars) : Option Chars :=
  (findSplit (matchKeyDateAt true (toL "last-streak-date")) l).map fun p => p.2.1

def timerNumOf (l : Chars) : Option Chars :=
  (findSplit matchTimerNumAt l).map fun p => p.2.1

def schedOf (l : Chars) : Option Chars :=
  (findSplit matchTimerDateAt l).map fun p => p.2.1

def startOf (l : Chars) : Option Chars :=
  (findSplit matchPlusDateAt l).map fun p => p.2.1

def attrOf (l : Chars) : Option Chars :=
  (findSplit matchAttrAt l).map fun p => p.2.1

structure EisenhowerTask where
  content : Chars
  importance : Level
  urgency : Level
  durationMinutes : Nat
  file : Chars
  line : Nat
  habitType : Option HabitType
  accumulated : Bool
  accumulatedCount : Option Int
  lastDoneDate : Option Chars
  taskType : TaskType
  scheduledDate : Option Chars
  startDate : Option Chars
  currentStreak : Option Nat
  maxStreak : Option Nat
  lastStreakDate : Option Chars
  attributeName : Option Chars
deriving DecidableEq, Repr

/-- Comparison of a boolean-typed JS value against undefined with strict
equality: a boolean is never undefined, so the comparison is always false.
The source's admission check compares the boolean variables holding the
urgency/importance signals against undefined this way. -/
def jsEqUndefBool (_b : Bool) : Bool := false

/-- The task model builder (source function parseTask): extracts every
recognized field from the line and assembles the task record; the admission
check mirrors the source line for line, including its comparison of the
boolean signal variables against undefined. -/
def parseTask (line file : Chars) (lineNumber : Nat) : Option EisenhowerTask :=
  let importance := importanceOf line
  let urgency := urgencyOf line
  let duration := durationBrOf line
  let isUrgent := containsSeq fireEmoji line || (urgency == some Level.high)
  let isImportant := containsSeq starEmoji line || (importance == some Level.high)
  let durationMinutes := ((timerNumOf line).orElse fun _ => duration).getD ['0']
  let habitType :=
    match habitBrOf line with
    | some h => some h
    | none => if containsSeq habitEmoji line then some HabitType.daily else none
  let accumulated := accumBrTest line || containsSeq coinEmoji line
  let accumulatedCount := rawAccumCount line
  let scheduledDate := schedOf line
  let taskType :=
    if scheduledDate.isSome then TaskType.scheduled
    else if habitType.isSome then TaskType.repeatedDaily
    else TaskType.regular
  let startDate := startOf line
  let attributeName := attrOf line
  if jsEqUndefBool isUrgent && jsEqUndefBool isImportant && !habitType.isSome
      && !accumulated && !scheduledDate.isSome && !startDate.isSome
      && !attributeName.isSome then
    none
  else
    some
      { content := line
        importance := if isImportant then Level.high else Level.low
        urgency := if isUrgent then Level.high else Level.low
        durationMinutes := parseIntDigits durationMinutes
        file := file
        line := lineNumber
        habitType := habitType
        accumulated := accumulated
        accumulatedCount := if accumulated then some (accumulatedCount.getD 0) else none
        lastDoneDate := lastDoneOf line
        taskType := taskType
        scheduledDate := scheduledDate
        startDate := startDate
        currentStreak := (streakCapOf line).map parseIntDigits
        maxStreak := (maxStreakCapOf line).map parseIntDigits
        lastStreakDate := lastStreakDateOf line
        attributeName := attributeName }

structure GroupedTasks where
  urgentImportant : List EisenhowerTask
  notUrgentImportant : List EisenhowerTask
  urgentNotImportant : List EisenhowerTask
  neither : List EisenhowerTask
deriving DecidableEq, Repr

/-- The classifier (source function groupTasks): four filters over the task
list, one per quadrant of the importance-urgency matrix. -/
def groupTasks (tasks : List EisenhowerTask) : GroupedTasks where
  urgentImportant :=
    tasks.filter fun t => t.importance == Level.high && t.urgency == Level.high
  notUrgentImportant :=
    tasks.filter fun t => t.importance == Level.high && t.urgency == Level.low
  urgentNotImportant :=
    tasks.filter fun t => t.importance == Level.low && t.urgency == Level.high
  neither :=
    tasks.filter fun t => t.importance == Level.low && t.urgency == Level.low

/-- JS truthiness of a `string | undefined` value: undefined and the empty
string are falsy. -/
def jsFalsyOptStr : Option Chars → Bool
  | none => true
  | some s => s.isEmpty

/-- The streak state machine (source function calculateStreakFromDates).
The source reads today and yesterday from the clock; both are explicit
inputs here. Returns (newStreak, shouldUpdate). -/
def calculateStreakFromDates (today yesterday : Chars)
    (lastDoneDate lastStreakDate : Option Chars) (currentStreak : Nat) : Nat × Bool :=
  if jsFalsyOptStr lastDoneDate then (0, false)
  else if lastDoneDate == some today && lastStreakDate == some today then
    (currentStreak, false)
  else if lastDoneDate == some today then
    if lastStreakDate == some yesterday then (currentStreak + 1, true)
    else (1, true)
  else if lastDoneDate == some yesterday && lastStreakDate == some yesterday then
    (currentStreak, false)
  else (0, true)

/-- The six-rule first-match streak policy exactly as the claim words it:
rule 1 fires when lastDoneDate is absent. -/
def claimStreakPolicy (today yesterday : Chars)
    (lastDoneDate lastStreakDate : Option Chars) (currentStreak : Nat) : Nat × Bool :=
  if lastDoneDate = none then (0, false)
  else if lastDoneDate = some today ∧ lastStreakDate = some today then
    (currentStreak, false)
  else if lastDoneDate = some today ∧ lastStreakDate = some yesterday then
    (currentStreak + 1, true)
  else if lastDoneDate = some today then (1, true)
  else if lastDoneDate = some yesterday ∧ lastStreakDate = some yesterday then
    (currentStreak, false)
  else (0, true)

/-- The six-rule policy with rule 1 amended to fire when lastDoneDate is
absent or the empty string (the JS-falsy values of its type). -/
def claimStreakPolicyAmended (today yesterday : Chars)
    (lastDoneDate lastStreakDate : Option Chars) (currentStreak : Nat) : Nat × Bool :=
  if lastDoneDate = none ∨ lastDoneDate = some [] then (0, false)
  else if lastDoneDate = some today ∧ lastStreakDate = some today then
    (currentStreak, false)
  else if lastDoneDate = some today ∧ lastStreakDate = some yesterday then
    (currentStreak + 1, true)
  else if lastDoneDate = some today then (1, true)
  else if lastDoneDate = some yesterday ∧ lastStreakDate = some yesterday then
    (currentStreak, false)
  else (0, true)

/-- The streak fields the habit-completion handler persists when the streak
machine asks for an update (source _markHabitTaskDoneWithDate, the
shouldUpdate branch): `some (newStreak, newMaxStreak)` when an update is
persisted, `none` when no streak fields are written. -/
def persistedStreakFields (today yesterday : Chars)
    (lastDoneDate lastStreakDate : Option Chars)
    (currentStreak maxStreak : Option Nat) : Option (Nat × Nat) :=
  let r := calculateStreakFromDates today yesterday lastDoneDate lastStreakDate
    (currentStreak.getD 0)
  if r.2 then some (r.1, max r.1 (maxStreak.getD 0)) else none

/-! Mutation helpers. Line-level rewrites first, then the document-level
operations with their line re-validation checks. -/

/-- The line rewrite of _incrementAccumulatedTask: bump the first unsigned
success annotation; else migrate an unsigned trailing bracket count; else
append a fresh counter of one to the trimmed line. -/
def incrementLine (line : Chars) : Chars :=
  match findSplit (matchSuccessAt false) line with
  | some (b, v, a) => b ++ sTag (natDigits (parseIntDigits v + 1)) ++ a
  | none =>
    match findSplit (matchTrailAt false) line with
    | some (b, v, _) => b ++ sTag (natDigits (parseIntDigits v + 1))
    | none => trimEndL line ++ (' ' :: sTag ['1'])

/-- The line rewrite of _decrementAccumulatedTask: decrement floored at
zero on the first unsigned success annotation; else migrate an unsigned
trailing bracket count, floored at zero; else append a zero counter. -/
def decrementLine (line : Chars) : Chars :=
  match findSplit (matchSuccessAt false) line with
  | some (b, v, a) => b ++ sTag (natDigits (parseIntDigits v - 1)) ++ a
  | none =>
    match findSplit (matchTrailAt false) line with
    | some (b, v, _) => b ++ sTag (natDigits (parseIntDigits v - 1))
    | none => trimEndL line ++ (' ' :: sTag ['0'])

/-- The number-in-brackets alternative of the stem-splitting pattern. -/
def matchPlainBrNumAt (s : Chars) : Option (Chars × Chars) :=
  match s with
  | '[' :: t =>
    let p := takeDigits t
    if p.1.isEmpty then none
    else
      match p.2 with
      | ']' :: rest => some (p.1, rest)
      | _ => none
  | _ => none

/-- Does one of the alternatives of the stem-splitting pattern match at
this position (case-sensitively, as in the source's split regex)? -/
def altHit (s : Chars) : Bool :=
  startsWithL (toL "habit::") s || startsWithL (toL "accumulated::") s
    || startsWithL (toL "accumulated-count::") s || (matchPlainBrNumAt s).isSome
    || startsWithL (toL "importance::") s || startsWithL (toL "urgency::") s
    || startsWithL (toL "duration::") s

/-- Text before the first position where an alternative of the
stem-splitting pattern matches (JS split(...)[0]). -/
def stemSplit : Chars → Chars
  | [] => []
  | c :: t => if altHit (c :: t) then [] else c :: stemSplit t

/-- The content stem the counter mutations validate against: the text up to
the first recognized annotation token, trimmed. -/
def stemOf (l : Chars) : Chars := trimL (stemSplit l)

/-- Document-level _incrementAccumulatedTask: locate the line, abort (with
a user notice, modelled as `none`) when it is missing, empty or fails the
stem re-validation, else rewrite it in place. -/
def incrementAccumulatedTask (lines : List Chars) (lineNumber : Nat)
    (originalLine : Chars) : Option (List Chars) :=
  let idx := lineNumber - 1
  match lines.get? idx with
  | none => none
  | some l =>
    if l.isEmpty then none
    else if startsWithL (stemOf originalLine) (stemOf l) then
      some (lines.set idx (incrementLine l))
    else none

/-- Document-level _decrementAccumulatedTask, same validation. -/
def decrementAccumulatedTask (lines : List Chars) (lineNumber : Nat)
    (originalLine : Chars) : Option (List Chars) :=
  let idx := lineNumber - 1
  match lines.get? idx with
  | none => none
  | some l =>
    if l.isEmpty then none
    else if startsWithL (stemOf originalLine) (stemOf l) then
      some (lines.set idx (decrementLine l))
    else none

/-- Document-level _markEisenhowerTaskDone: the only check on the located
line is that it exists, is truthy and contains an open checkbox; the
expected original line plays no part in the check. -/
def markEisenhowerTaskDone (lines : List Chars) (lineNumber : Nat)
    (originalLine : Chars) : Option (List Chars) :=
  let _ := originalLine
  let idx := lineNumber - 1
  match lines.get? idx with
  | none => none
  | some l =>
    if l.isEmpty then none
    else if containsSeq (toL "- [ ]") l then
      some (lines.set idx (replaceFirstSeq (toL "- [ ]") (toL "- [x]") l))
    else none

/-- The four strip passes of _markHabitTaskDoneWithDate, in source order:
last-done, streak, max-streak, last-streak-date (case-sensitive regexes). -/
def stripStreakProps (l : Chars) : Chars :=
  stripAllPat (matchKeyDateAt false (toL "last-streak-date"))
    (stripAllPat (matchKeyNatAt false (toL "max-streak"))
      (stripAllPat (matchKeyNatAt false (toL "streak"))
        (stripAllPat (matchKeyDateAt false (toL "last-done")) l)))

/-- Document-level _markHabitTaskDoneWithDate: exact trimmed-line match
against the expected original, strip the date/streak annotations, re-add
last-done, and append fresh streak fields only when the streak machine asks
for an update. -/
def markHabitTaskDoneWithDate (enableStreakTracking : Bool) (today yesterday : Chars)
    (filePath : Chars) (lines : List Chars) (lineNumber : Nat)
    (originalLine : Chars) : Option (List Chars) :=
  let idx := lineNumber - 1
  match lines.get? idx with
  | none => none
  | some l =>
    if l.isEmpty then none
    else if trimL l == trimL originalLine then
      let base := trimEndL (stripStreakProps l) ++ toL " [last-done::" ++ today ++ [']']
      if enableStreakTracking then
        match parseTask l filePath lineNumber with
        | none => none
        | some task =>
          let r := calculateStreakFromDates today yesterday task.lastDoneDate
            task.lastStreakDate (task.currentStreak.getD 0)
          if r.2 then
            let newStreak := r.1
            let maxS := max newStreak (task.maxStreak.getD 0)
            some (lines.set idx
              (base ++ toL " [streak::" ++ natDigits newStreak
                ++ toL "] [max-streak::" ++ natDigits maxS
                ++ toL "] [last-streak-date::" ++ today ++ [']']))
          else some (lines.set idx base)
      else some (lines.set idx base)
    else none

/-! ## Helper lemmas -/

theorem jsFalsyOptStr_iff (o : Option Chars) :
    jsFalsyOptStr o = true ↔ o = none ∨ o = some [] := by
  cases o with
  | none => simp [jsFalsyOptStr]
  | some s => cases s <;> simp [jsFalsyOptStr]

theorem groupTasks_perm (ts : List EisenhowerTask) :
    ((groupTasks ts).urgentImportant ++ ((groupTasks ts).notUrgentImportant
      ++ ((groupTasks ts).urgentNotImportant ++ (groupTasks ts).neither))).Perm ts := by
  induction ts with
  | nil => simp [groupTasks]
  | cons t ts ih =>
    cases h1 : t.importance <;> cases h2 : t.urgency <;>
      simp only [groupTasks, List.filter_cons, h1, h2] at ih ⊢ <;>
      simp only [beq_self_eq_true, beq_iff_eq, reduceCtorEq, Bool.and_true,
        Bool.and_false, Bool.true_and, Bool.false_and, if_true, if_false,
        ite_true, ite_false, List.cons_append] <;>
      first
        | exact ih.cons t
        | exact List.perm_middle.trans (ih.cons t)
        | exact ((List.perm_middle.append_left _).trans List.perm_middle).trans (ih.cons t)
        | exact (((List.perm_middle.append_left _).append_left _).trans
            ((List.perm_middle.append_left _).trans List.perm_middle)).trans (ih.cons t)

theorem groupTasks_mem_ui (ts : List EisenhowerTask) (t : EisenhowerTask)
    (h : t ∈ (groupTasks ts).urgentImportant) :
    t.importance = Level.high ∧ t.urgency = Level.high := by
  simp only [groupTasks, List.mem_filter, Bool.and_eq_true, beq_iff_eq] at h
  exact h.2

theorem groupTasks_mem_nui (ts : List EisenhowerTask) (t : EisenhowerTask)
    (h : t ∈ (groupTasks ts).notUrgentImportant) :
    t.importance = Level.high ∧ t.urgency = Level.low := by
  simp only [groupTasks, List.mem_filter, Bool.and_eq_true, beq_iff_eq] at h
  exact h.2

theorem groupTasks_mem_uni (ts : List EisenhowerTask) (t : EisenhowerTask)
    (h : t ∈ (groupTasks ts).urgentNotImportant) :
    t.importance = Level.low ∧ t.urgency = Level.high := by
  simp only [groupTasks, List.mem_filter, Bool.and_eq_true, beq_iff_eq] at h
  exact h.2

theorem groupTasks_mem_n (ts : List EisenhowerTask) (t : EisenhowerTask)
    (h : t ∈ (groupTasks ts).neither) :
    t.importance = Level.low ∧ t.urgency = Level.low := by
  simp only [groupTasks, List.mem_filter, Bool.and_eq_true, beq_iff_eq] at h
  exact h.2

/-! ## Claim C4 -/

/-- C4: for every list of task records, the four quadrants returned by
groupTasks are pairwise disjoint, their concatenation is a permutation of
the input list (union as a multiset equals the input), and each quadrant is
a sublist of the input, so records keep their relative input order. -/
theorem c4_quadrant_partition (ts : List EisenhowerTask) :
    ((groupTasks ts).urgentImportant ++ ((groupTasks ts).notUrgentImportant
      ++ ((groupTasks ts).urgentNotImportant ++ (groupTasks ts).neither))).Perm ts
    ∧ (groupTasks ts).urgentImportant.Sublist ts
    ∧ (groupTasks ts).notUrgentImportant.Sublist ts
    ∧ (groupTasks ts).urgentNotImportant.Sublist ts
    ∧ (groupTasks ts).neither.Sublist ts
    ∧ List.Disjoint (groupTasks ts).urgentImportant (groupTasks ts).notUrgentImportant
    ∧ List.Disjoint (groupTasks ts).urgentImportant (groupTasks ts).urgentNotImportant
    ∧ List.Disjoint (groupTasks ts).urgentImportant (groupTasks ts).neither
    ∧ List.Disjoint (groupTasks ts).notUrgentImportant (groupTasks ts).urgentNotImportant
    ∧ List.Disjoint (groupTasks ts).notUrgentImportant (groupTasks ts).neither
    ∧ List.Disjoint (groupTasks ts).urgentNotImportant (groupTasks ts).neither := by
  refine ⟨groupTasks_perm ts, List.filter_sublist ts, List.filter_sublist ts,
    List.filter_sublist ts, List.filter_sublist ts, ?_, ?_, ?_, ?_, ?_, ?_⟩ <;>
    intro t h1 h2
  · exact absurd ((groupTasks_mem_nui ts t h2).2)
      (by simp [(groupTasks_mem_ui ts t h1).2])
  · exact absurd ((groupTasks_mem_uni ts t h2).1)
      (by simp [(groupTasks_mem_ui ts t h1).1])
  · exact absurd ((groupTasks_mem_n ts t h2).1)
      (by simp [(groupTasks_mem_ui ts t h1).1])
  · exact absurd ((groupTasks_mem_uni ts t h2).1)
      (by simp [(groupTasks_mem_nui ts t h1).1])
  · exact absurd ((groupTasks_mem_n ts t h2).1)
      (by simp [(groupTasks_mem_nui ts t h1).1])
  · exact absurd ((groupTasks_mem_n ts t h2).2)
      (by simp [(groupTasks_mem_uni ts t h1).2])

/-! ## Claim C1 -/

/-- C1 counterexample: the streak function does not follow the claim's
six-rule policy on every input. With lastDoneDate present but equal to the
empty string (a value of its string-or-undefined type that is JS-falsy),
the code returns (0, false) from its first guard while the claim's rules
dictate rule 6, (0, true). -/
theorem c1_policy_counterexample :
    calculateStreakFromDates (toL "2025-06-08") (toL "2025-06-07") (some []) none 5
      = (0, false)
    ∧ claimStreakPolicy (toL "2025-06-08") (toL "2025-06-07") (some []) none 5
      = (0, true)
    ∧ calculateStreakFromDates (toL "2025-06-08") (toL "2025-06-07") (some []) none 5
      ≠ claimStreakPolicy (toL "2025-06-08") (toL "2025-06-07") (some []) none 5 := by
  exact ⟨by decide, by decide, by decide⟩

/-- C1 amended: calculateStreakFromDates implements the claim's six-rule
first-match policy once rule 1 is widened to fire when lastDoneDate is
absent or the empty string; on every input the two agree. -/
theorem c1_policy_amended (today yesterday : Chars)
    (lastDoneDate lastStreakDate : Option Chars) (currentStreak : Nat) :
    calculateStreakFromDates today yesterday lastDoneDate lastStreakDate currentStreak
      = claimStreakPolicyAmended today yesterday lastDoneDate lastStreakDate currentStreak := by
  rcases lastDoneDate with _ | s
  · simp [calculateStreakFromDates, claimStreakPolicyAmended, jsFalsyOptStr]
  · rcases s with _ | ⟨c, cs⟩
    · simp [calculateStreakFromDates, claimStreakPolicyAmended, jsFalsyOptStr]
    · by_cases hT : c :: cs = today <;> by_cases hY : c :: cs = yesterday <;>
        by_cases hLT : lastStreakDate = some today <;>
        by_cases hLY : lastStreakDate = some yesterday <;>
        simp_all [calculateStreakFromDates, claimStreakPolicyAmended, jsFalsyOptStr]

/-! ## Claim C2 -/

/-- C2 (the code against the claimed admission invariant): parseTask never
returns null for any line whatsoever — its admission check compares the
always-boolean urgency/importance signal variables against undefined, so
the check never fires. In particular a line with none of the recognized
signals still builds a task record, all fields defaulted. -/
theorem c2_admission_check_never_fires :
    (∀ (line file : Chars) (n : Nat), (parseTask line file n).isSome = true)
    ∧ parseTask (toL "plain text line") (toL "n.md") 3 = some
      { content := toL "plain text line", importance := Level.low,
        urgency := Level.low, durationMinutes := 0, file := toL "n.md",
        line := 3, habitType := none, accumulated := false,
        accumulatedCount := none, lastDoneDate := none,
        taskType := TaskType.regular, scheduledDate := none, startDate := none,
        currentStreak := none, maxStreak := none, lastStreakDate := none,
        attributeName := none } := by
  constructor
  · intro line file n
    simp [parseTask, jsEqUndefBool]
  · decide

/-! ## Claim C9 -/

/-- C9: whenever the habit-completion handler persists a streak update, the
max-streak it writes equals max(previous maxStreak, newStreak); hence the
previous maxStreak never decreases and the written currentStreak is at most
the written maxStreak. -/
theorem c9_max_streak_invariant (today yesterday : Chars)
    (lastDoneDate lastStreakDate : Option Chars)
    (currentStreak maxStreak : Option Nat) (ns nm : Nat)
    (h : persistedStreakFields today yesterday lastDoneDate lastStreakDate
      currentStreak maxStreak = some (ns, nm)) :
    nm = max ns (maxStreak.getD 0) ∧ maxStreak.getD 0 ≤ nm ∧ ns ≤ nm := by
  unfold persistedStreakFields at h
  by_cases hr : (calculateStreakFromDates today yesterday lastDoneDate lastStreakDate
      (currentStreak.getD 0)).2 = true
  · simp only [hr, if_true, Option.some.injEq, Prod.mk.injEq] at h
    obtain ⟨h1, h2⟩ := h
    subst h1; subst h2
    exact ⟨rfl, Nat.le_max_right _ _, Nat.le_max_left _ _⟩
  · simp [hr] at h

/-- C9 witness: a concrete persisted update (continuing a 4-day streak on
2025-06-08 with personal best 5) instantiating the invariant. -/
theorem c9_max_streak_invariant_witness :
    5 = max 5 ((some 5 : Option Nat).getD 0)
    ∧ (some 5 : Option Nat).getD 0 ≤ 5 ∧ 5 ≤ 5 := by
  exact c9_max_streak_invariant (toL "2025-06-08") (toL "2025-06-07")
    (some (toL "2025-06-08")) (some (toL "2025-06-07")) (some 4) (some 5) 5 5
    (by decide)

/-! ## Claim C3 -/

/-- C3 (the code against the claim): on a second completion of the same
habit on the same day the streak machine does return shouldUpdate = false
with an unchanged currentStreak (last conjunct), and no new streak fields
are appended — but the streak annotations already present on the line are
not left unchanged: the handler strips [streak::N], [max-streak::N] and
[last-streak-date::...] from the line and rewrites it with only the
[last-done::...] tag restored, erasing the persisted streak state. -/
theorem c3_second_completion_strips_streak_fields :
    markHabitTaskDoneWithDate true (toL "2025-06-08") (toL "2025-06-07") (toL "h.md")
      [toL "- [ ] Run [last-done::2025-06-08] [streak::3] [max-streak::5] [last-streak-date::2025-06-08]"]
      1
      (toL "- [ ] Run [last-done::2025-06-08] [streak::3] [max-streak::5] [last-streak-date::2025-06-08]")
      = some [toL "- [ ] Run [last-done::2025-06-08]"]
    ∧ containsSeq (toL "[streak::3]")
        (toL "- [ ] Run [last-done::2025-06-08] [streak::3] [max-streak::5] [last-streak-date::2025-06-08]")
        = true
    ∧ containsSeq (toL "[streak::") (toL "- [ ] Run [last-done::2025-06-08]") = false
    ∧ containsSeq (toL "[max-streak::") (toL "- [ ] Run [last-done::2025-06-08]") = false
    ∧ calculateStreakFromDates (toL "2025-06-08") (toL "2025-06-07")
        (some (toL "2025-06-08")) (some (toL "2025-06-08")) 3 = (3, false) := by
  exact ⟨by decide, by decide, by decide, by decide, by decide⟩

/-! ## Claim C5 -/

/-- C5 counterexample: the simple (Eisenhower) done-marking does not
re-validate the target line against the expected original content. With the
stored line differing from the expected original in its entire text, the
mutation still goes through and rewrites the line. -/
theorem c5_no_revalidation_counterexample :
    (markEisenhowerTaskDone [toL "- [ ] alpha"] 1 (toL "- [ ] beta")).isSome = true
    ∧ toL "- [ ] alpha" ≠ toL "- [ ] beta" := by
  exact ⟨by decide, by decide⟩

/-- C5 amended: the counter mutations re-validate the target line by
content-stem (text up to the first recognized annotation token) and the
habit completion by exact trimmed content, and whenever such a check fails
the mutation aborts with a non-fatal notice and the document is unchanged
(modelled: the operation returns none, writing nothing); the simple
Eisenhower done-marking, however, checks only that the target line exists,
is non-empty and contains an open checkbox, not that it matches the
expected original. -/
theorem c5_amended_validation :
    (∀ (lines : List Chars) (n : Nat) (orig l : Chars),
      lines.get? (n - 1) = some l → l.isEmpty = false →
      startsWithL (stemOf orig) (stemOf l) = false →
      incrementAccumulatedTask lines n orig = none)
    ∧ (∀ (lines : List Chars) (n : Nat) (orig l : Chars),
      lines.get? (n - 1) = some l → l.isEmpty = false →
      startsWithL (stemOf orig) (stemOf l) = false →
      decrementAccumulatedTask lines n orig = none)
    ∧ (∀ (e : Bool) (today yesterday fp : Chars) (lines : List Chars) (n : Nat)
        (orig l : Chars),
      lines.get? (n - 1) = some l → l.isEmpty = false →
      (trimL l == trimL orig) = false →
      markHabitTaskDoneWithDate e today yesterday fp lines n orig = none)
    ∧ markEisenhowerTaskDone [toL "- [ ] alpha"] 1 (toL "- [ ] beta")
        = some [toL "- [x] alpha"] := by
  refine ⟨?_, ?_, ?_, by decide⟩
  · intro lines n orig l hget hemp hstem
    rw [List.get?_eq_getElem?] at hget
    have hne : l ≠ [] := by intro he; subst he; simp [List.isEmpty] at hemp
    simp [incrementAccumulatedTask, hget, hne, hstem]
  · intro lines n orig l hget hemp hstem
    rw [List.get?_eq_getElem?] at hget
    have hne : l ≠ [] := by intro he; subst he; simp [List.isEmpty] at hemp
    simp [decrementAccumulatedTask, hget, hne, hstem]
  · intro e today yesterday fp lines n orig l hget hemp htrim
    rw [List.get?_eq_getElem?] at hget
    have hne : l ≠ [] := by intro he; subst he; simp [List.isEmpty] at hemp
    simp [markHabitTaskDoneWithDate, hget, hne, htrim]

/-! ## Claim C8 -/

/-- C8 counterexample: a line carrying both the importance emoji and the
bracket tag [importance::low] parses with importance = high, not low — the
emoji wins, contrary to the claimed bracket precedence (and likewise for
urgency). -/
theorem c8_bracket_precedence_counterexample :
    (parseTask (toL "- [ ] report " ++ starEmoji ++ toL " [importance::low]")
        (toL "f.md") 1).map (fun t => t.importance) = some Level.high
    ∧ importanceOf (toL "- [ ] report " ++ starEmoji ++ toL " [importance::low]")
        = some Level.low
    ∧ containsSeq starEmoji (toL "- [ ] report " ++ starEmoji ++ toL " [importance::low]")
        = true
    ∧ (parseTask (toL "- [ ] call " ++ fireEmoji ++ toL " [urgency::low]")
        (toL "f.md") 1).map (fun t => t.urgency) = some Level.high
    ∧ urgencyOf (toL "- [ ] call " ++ fireEmoji ++ toL " [urgency::low]")
        = some Level.low
    ∧ containsSeq fireEmoji (toL "- [ ] call " ++ fireEmoji ++ toL " [urgency::low]")
        = true := by
  exact ⟨by decide, by decide, by decide, by decide, by decide, by decide⟩

/-- C8 amended: when bracket tag and emoji are both present for the same
field, the emoji takes precedence for forcing high: a parsed record has
importance high exactly when the importance emoji is present or the bracket
value is high (so [importance::low] next to the emoji yields high), and the
same for urgency with its emoji and bracket. -/
theorem c8_amended_emoji_forces_high (line file : Chars) (n : Nat)
    (t : EisenhowerTask) (h : parseTask line file n = some t) :
    (t.importance = Level.high
      ↔ (containsSeq starEmoji line = true ∨ importanceOf line = some Level.high))
    ∧ (t.urgency = Level.high
      ↔ (containsSeq fireEmoji line = true ∨ urgencyOf line = some Level.high)) := by
  unfold parseTask at h
  rw [if_neg (by simp [jsEqUndefBool])] at h
  injection h with h
  subst h
  constructor
  · cases hc : containsSeq starEmoji line <;>
      rcases ho : importanceOf line with _ | lv <;> try cases lv
    all_goals simp_all
  · cases hc : containsSeq fireEmoji line <;>
      rcases ho : urgencyOf line with _ | lv <;> try cases lv
    all_goals simp_all

/-- C8 amended witness: the emoji-beside-bracket-low line instantiated
concretely, discharging the parse hypothesis. -/
theorem c8_amended_emoji_forces_high_witness :
    (Level.high = Level.high
      ↔ (containsSeq starEmoji (toL "- [ ] report " ++ starEmoji ++ toL " [importance::low]") = true
        ∨ importanceOf (toL "- [ ] report " ++ starEmoji ++ toL " [importance::low]")
            = some Level.high))
    ∧ (Level.low = Level.high
      ↔ (containsSeq fireEmoji (toL "- [ ] report " ++ starEmoji ++ toL " [importance::low]") = true
        ∨ urgencyOf (toL "- [ ] report " ++ starEmoji ++ toL " [importance::low]")
            = some Level.high)) := by
  have h := c8_amended_emoji_forces_high
    (toL "- [ ] report " ++ starEmoji ++ toL " [importance::low]") (toL "f.md") 1
    { content := toL "- [ ] report " ++ starEmoji ++ toL " [importance::low]",
      importance := Level.high, urgency := Level.low, durationMinutes := 0,
      file := toL "f.md", line := 1, habitType := none, accumulated := false,
      accumulatedCount := none, lastDoneDate := none, taskType := TaskType.regular,
      scheduledDate := none, startDate := none, currentStreak := none,
      maxStreak := none, lastStreakDate := none, attributeName := none }
    (by decide)
  exact h

/-! ## String-surgery lemmas for the counter matchers -/

theorem chEq_refl (ci : Bool) (c : Char) : chEq ci c c = true := by
  cases ci <;> simp [chEq]

theorem seqMatch_refl (ci : Bool) (p : Chars) : seqMatch ci p p = true := by
  induction p with
  | nil => rfl
  | cons c t ih => simp [seqMatch, chEq_refl, ih]

theorem seqMatch_length {ci : Bool} {p u : Chars} (h : seqMatch ci p u = true) :
    p.length = u.length := by
  induction p generalizing u with
  | nil => cases u with
    | nil => rfl
    | cons _ _ => simp [seqMatch] at h
  | cons c t ih =>
    cases u with
    | nil => simp [seqMatch] at h
    | cons d w =>
      simp only [seqMatch, Bool.and_eq_true] at h
      simp [ih h.2]

theorem matchLitB_sound {ci : Bool} {p s r : Chars} (h : matchLitB ci p s = some r) :
    ∃ u, s = u ++ r ∧ seqMatch ci p u = true := by
  induction p generalizing s with
  | nil =>
    simp only [matchLitB, Option.some.injEq] at h
    exact ⟨[], by simp [h], by simp [seqMatch]⟩
  | cons c t ih =>
    cases s with
    | nil => simp [matchLitB] at h
    | cons d w =>
      simp only [matchLitB] at h
      by_cases hc : chEq ci c d = true
      · rw [if_pos hc] at h
        obtain ⟨u, hu1, hu2⟩ := ih h
        exact ⟨d :: u, by simp [hu1], by simp [seqMatch, hc, hu2]⟩
      · rw [if_neg hc] at h; exact absurd h (by simp)

theorem matchLitB_complete {ci : Bool} {p u : Chars} (h : seqMatch ci p u = true)
    (x : Chars) : matchLitB ci p (u ++ x) = some x := by
  induction p generalizing u with
  | nil =>
    cases u with
    | nil => rfl
    | cons _ _ => simp [seqMatch] at h
  | cons c t ih =>
    cases u with
    | nil => simp [seqMatch] at h
    | cons d w =>
      simp only [seqMatch, Bool.and_eq_true] at h
      simp [matchLitB, h.1, ih h.2]

theorem matchLitB_append_cases {ci : Bool} {p u v r : Chars}
    (h : matchLitB ci p (u ++ v) = some r) :
    (∃ u1 u2, u = u1 ++ u2 ∧ seqMatch ci p u1 = true ∧ r = u2 ++ v)
    ∨ (∃ p1 p2, p = p1 ++ p2 ∧ p2 ≠ [] ∧ seqMatch ci p1 u = true
        ∧ matchLitB ci p2 v = some r) := by
  induction p generalizing u with
  | nil =>
    left
    simp only [matchLitB, Option.some.injEq] at h
    exact ⟨[], u, rfl, by simp [seqMatch], h.symm⟩
  | cons c t ih =>
    cases u with
    | nil =>
      right
      exact ⟨[], c :: t, rfl, by simp, by simp [seqMatch], by simpa using h⟩
    | cons d w =>
      simp only [List.cons_append, matchLitB] at h
      by_cases hc : chEq ci c d = true
      · rw [if_pos hc] at h
        rcases ih h with ⟨u1, u2, h1, h2, h3⟩ | ⟨p1, p2, h1, h2, h3, h4⟩
        · left; exact ⟨d :: u1, u2, by simp [h1], by simp [seqMatch, hc, h2], h3⟩
        · right; exact ⟨c :: p1, p2, by simp [h1], h2, by simp [seqMatch, hc, h3], h4⟩
      · rw [if_neg hc] at h; exact absurd h (by simp)

theorem takeDigits_eq_append (s : Chars) : s = (takeDigits s).1 ++ (takeDigits s).2 := by
  induction s with
  | nil => rfl
  | cons c t ih =>
    by_cases hc : isDigitCh c = true
    · simpa [takeDigits, hc] using ih
    · simp [takeDigits, hc]

theorem takeDigits_all (s : Chars) : (takeDigits s).1.all isDigitCh = true := by
  induction s with
  | nil => rfl
  | cons c t ih =>
    by_cases hc : isDigitCh c = true
    · simpa [takeDigits, hc] using ih
    · simp [takeDigits, hc]

theorem takeDigits_head {s t : Chars} {c : Char} (h : (takeDigits s).2 = c :: t) :
    isDigitCh c = false := by
  induction s with
  | nil => simp [takeDigits] at h
  | cons d w ih =>
    by_cases hd : isDigitCh d = true
    · exact ih (by simpa [takeDigits, hd] using h)
    · rw [show takeDigits (d :: w) = ([], d :: w) from by simp [takeDigits, hd]] at h
      injection h with h1 _
      subst h1
      simpa using hd

theorem takeDigits_append {a b : Chars} (ha : a.all isDigitCh = true)
    (hb : ∀ c t, b = c :: t → isDigitCh c = false) :
    takeDigits (a ++ b) = (a, b) := by
  induction a with
  | nil =>
    cases b with
    | nil => rfl
    | cons c t => simp [takeDigits, hb c t rfl]
  | cons d w ih =>
    simp only [List.all_cons, Bool.and_eq_true] at ha
    simp [takeDigits, ha.1, ih ha.2]

theorem validNum_unsigned {v : Chars} (hne : v ≠ []) (hall : v.all isDigitCh = true)
    (sg : Bool) : validNum sg v = true := by
  cases v with
  | nil => exact absurd rfl hne
  | cons d vt =>
    simp only [List.all_cons, Bool.and_eq_true] at hall
    cases sg with
    | false => simp [validNum, hall.1, hall.2]
    | true =>
      by_cases hd : d = '-'
      · subst hd; simpa [isDigitCh] using hall.1
      · rw [show validNum true (d :: vt) = (!(d :: vt).isEmpty && (d :: vt).all isDigitCh)
          from by unfold validNum; split <;> simp_all]
        simp [hall.1, hall.2]

theorem validNum_false_elim {v : Chars} (h : validNum false v = true) :
    v ≠ [] ∧ v.all isDigitCh = true := by
  cases v with
  | nil => simp [validNum] at h
  | cons d vt =>
    rw [show validNum false (d :: vt) = (!(d :: vt).isEmpty && (d :: vt).all isDigitCh)
      from by unfold validNum; rfl] at h
    simp only [List.isEmpty_cons, Bool.not_false, Bool.true_and] at h
    exact ⟨by simp, h⟩

theorem validNum_true_elim {v : Chars} (h : validNum true v = true) :
    (v ≠ [] ∧ v.all isDigitCh = true)
    ∨ (∃ ds, v = '-' :: ds ∧ ds ≠ [] ∧ ds.all isDigitCh = true) := by
  cases v with
  | nil => simp [validNum] at h
  | cons d vt =>
    by_cases hd : d = '-'
    · subst hd
      rw [show validNum true ('-' :: vt) = (!vt.isEmpty && vt.all isDigitCh)
        from by unfold validNum; rfl] at h
      simp only [Bool.and_eq_true, Bool.not_eq_true', List.isEmpty_eq_false] at h
      exact Or.inr ⟨vt, rfl, h.1, h.2⟩
    · rw [show validNum true (d :: vt) = (!(d :: vt).isEmpty && (d :: vt).all isDigitCh)
        from by unfold validNum; split <;> simp_all] at h
      simp only [List.isEmpty_cons, Bool.not_false, Bool.true_and] at h
      exact Or.inl ⟨by simp, h⟩

theorem validNum_mem {sg : Bool} {v : Chars} (h : validNum sg v = true) {c : Char}
    (hc : c ∈ v) : isDigitCh c = true ∨ c = '-' := by
  cases sg with
  | false =>
    obtain ⟨-, hall⟩ := validNum_false_elim h
    exact Or.inl (by simpa using List.all_eq_true.mp hall c hc)
  | true =>
    rcases validNum_true_elim h with ⟨-, hall⟩ | ⟨ds, rfl, -, hall⟩
    · exact Or.inl (by simpa using List.all_eq_true.mp hall c hc)
    · simp only [List.mem_cons] at hc
      rcases hc with rfl | hc
      · exact Or.inr rfl
      · exact Or.inl (by simpa using List.all_eq_true.mp hall c hc)

theorem numClose_sound {r v rest : Chars} (h : numClose r = some (v, rest)) :
    r = v ++ ']' :: rest ∧ v ≠ [] ∧ v.all isDigitCh = true := by
  unfold numClose at h
  rcases hp : takeDigits r with ⟨ds, r2⟩
  rw [hp] at h
  simp only at h
  by_cases hds : ds.isEmpty
  · rw [if_pos hds] at h; exact absurd h (by simp)
  · rw [if_neg hds] at h
    split at h
    · rename_i rest0
      simp only [Option.some.injEq, Prod.mk.injEq] at h
      obtain ⟨h1, h2⟩ := h
      subst h1; subst h2
      refine ⟨?_, by simpa using hds, by simpa [hp] using takeDigits_all r⟩
      have hta := takeDigits_eq_append r
      rw [hp] at hta
      simpa using hta
    · exact absurd h (by simp)

theorem numClose_complete {v : Chars} (hne : v ≠ []) (hall : v.all isDigitCh = true)
    (w : Chars) : numClose (v ++ ']' :: w) = some (v, w) := by
  have htd : takeDigits (v ++ ']' :: w) = (v, ']' :: w) :=
    takeDigits_append hall (by intro c t h; injection h with h1 _; subst h1; decide)
  unfold numClose
  rw [htd]
  simp [List.isEmpty_eq_false.mpr hne]

theorem matchNumTail_sound {sg : Bool} {r v rest : Chars}
    (h : matchNumTail sg r = some (v, rest)) :
    r = v ++ ']' :: rest ∧ validNum sg v = true := by
  cases sg with
  | false =>
    rw [show matchNumTail false r = numClose r from by unfold matchNumTail; split <;> simp_all] at h
    obtain ⟨h1, h2, h3⟩ := numClose_sound h
    exact ⟨h1, validNum_unsigned h2 h3 false⟩
  | true =>
    rcases r with _ | ⟨c, r2⟩
    · simp [matchNumTail, numClose, takeDigits] at h
    · by_cases hc : c = '-'
      · subst hc
        rw [show matchNumTail true ('-' :: r2) =
            (numClose r2).map (fun p => ('-' :: p.1, p.2)) from rfl] at h
        rcases hq : numClose r2 with _ | ⟨ds, rs⟩
        · rw [hq] at h; exact absurd h (by simp)
        · rw [hq] at h
          simp only [Option.map_some', Option.some.injEq, Prod.mk.injEq] at h
          obtain ⟨h1, h2⟩ := h
          subst h1; subst h2
          obtain ⟨hq1, hq2, hq3⟩ := numClose_sound hq
          constructor
          · simp [hq1]
          · rw [show validNum true ('-' :: ds) = (!ds.isEmpty && ds.all isDigitCh)
              from by unfold validNum; rfl]
            simp [List.isEmpty_eq_false.mpr hq2, hq3]
      · rw [show matchNumTail true (c :: r2) = numClose (c :: r2) from by
          unfold matchNumTail; split <;> simp_all] at h
        obtain ⟨h1, h2, h3⟩ := numClose_sound h
        exact ⟨h1, validNum_unsigned h2 h3 true⟩

theorem matchNumTail_complete {sg : Bool} {v : Chars} (h : validNum sg v = true)
    (w : Chars) : matchNumTail sg (v ++ ']' :: w) = some (v, w) := by
  cases sg with
  | false =>
    obtain ⟨h1, h2⟩ := validNum_false_elim h
    rw [show matchNumTail false (v ++ ']' :: w) = numClose (v ++ ']' :: w) from by
      unfold matchNumTail; split <;> simp_all]
    exact numClose_complete h1 h2 w
  | true =>
    rcases validNum_true_elim h with ⟨h1, h2⟩ | ⟨ds, rfl, h1, h2⟩
    · rcases v with _ | ⟨c, vt⟩
      · exact absurd rfl h1
      · have hc : c ≠ '-' := by
          intro hcc
          subst hcc
          simp only [List.all_cons, Bool.and_eq_true] at h2
          simpa [isDigitCh] using h2.1
        rw [show matchNumTail true ((c :: vt) ++ ']' :: w) = numClose ((c :: vt) ++ ']' :: w)
          from by unfold matchNumTail; split <;> simp_all]
        exact numClose_complete h1 h2 w
    · rw [show matchNumTail true (('-' :: ds) ++ ']' :: w) =
        (numClose (ds ++ ']' :: w)).map (fun p => ('-' :: p.1, p.2)) from rfl]
      rw [numClose_complete h1 h2 w]
      rfl

theorem matchSuccessAt_sound {sg : Bool} {s v r : Chars}
    (h : matchSuccessAt sg s = some (v, r)) :
    ∃ u0, s = u0 ++ v ++ ']' :: r ∧ seqMatch true successLit u0 = true
      ∧ validNum sg v = true := by
  unfold matchSuccessAt at h
  rcases hl : matchLitB true successLit s with _ | r1
  · rw [hl] at h; exact absurd h (by simp)
  · rw [hl] at h
    simp only [Option.some_bind] at h
    obtain ⟨u0, hu1, hu2⟩ := matchLitB_sound hl
    obtain ⟨ht1, ht2⟩ := matchNumTail_sound h
    exact ⟨u0, by rw [hu1, ht1, List.append_assoc], hu2, ht2⟩

theorem matchSuccessAt_complete {sg : Bool} {u0 v : Chars}
    (hu : seqMatch true successLit u0 = true) (hv : validNum sg v = true)
    (w : Chars) : matchSuccessAt sg (u0 ++ v ++ ']' :: w) = some (v, w) := by
  unfold matchSuccessAt
  rw [List.append_assoc]
  rw [matchLitB_complete hu]
  simp only [Option.some_bind]
  exact matchNumTail_complete hv w

theorem matchSuccessAt_weaken {s v r : Chars}
    (h : matchSuccessAt false s = some (v, r)) :
    matchSuccessAt true s = some (v, r) := by
  obtain ⟨u0, h1, h2, h3⟩ := matchSuccessAt_sound h
  subst h1
  exact matchSuccessAt_complete h2 (validNum_unsigned (validNum_false_elim h3).1
    (validNum_false_elim h3).2 true) r

theorem findSplit_sound {α : Type} {m : Chars → Option (α × Chars)} {l b : Chars}
    {v : α} {r : Chars} (h : findSplit m l = some (b, v, r)) :
    ∃ s, l = b ++ s ∧ m s = some (v, r)
      ∧ ∀ b1 b2, b = b1 ++ b2 → b2 ≠ [] → m (b2 ++ s) = none := by
  induction l generalizing b with
  | nil => simp [findSplit] at h
  | cons c t ih =>
    rw [findSplit] at h
    rcases hm : m (c :: t) with _ | ⟨v0, r0⟩
    · rw [hm] at h
      simp only [Option.map_eq_some'] at h
      obtain ⟨⟨b', v', r'⟩, hf, heq⟩ := h
      simp only [Prod.mk.injEq] at heq
      obtain ⟨hb, hv, hr⟩ := heq
      subst hb; subst hv; subst hr
      obtain ⟨s, hs1, hs2, hs3⟩ := ih hf
      refine ⟨s, by simp [hs1], hs2, ?_⟩
      intro b1 b2 hb hne
      rcases b1 with _ | ⟨d, b1t⟩
      · simp only [List.nil_append] at hb
        rw [← hb, List.cons_append, ← hs1]
        exact hm
      · injection hb with hd hbt
        subst hd
        exact hs3 b1t b2 hbt hne
    · rw [hm] at h
      simp only [Option.some.injEq, Prod.mk.injEq] at h
      obtain ⟨hb, hv, hr⟩ := h
      subst hb; subst hv; subst hr
      refine ⟨c :: t, rfl, hm, ?_⟩
      intro b1 b2 hb hne
      exact absurd (List.append_eq_nil.mp hb.symm).2 hne

theorem findSplit_complete {α : Type} {m : Chars → Option (α × Chars)} {X : Chars}
    {v : α} {r : Chars} (b : Chars) (hne : X ≠ []) (hm : m X = some (v, r))
    (hmin : ∀ b1 b2, b = b1 ++ b2 → b2 ≠ [] → m (b2 ++ X) = none) :
    findSplit m (b ++ X) = some (b, v, r) := by
  induction b with
  | nil =>
    rcases X with _ | ⟨c, t⟩
    · exact absurd rfl hne
    · simp [findSplit, hm]
  | cons c bt ih =>
    have h0 : m ((c :: bt) ++ X) = none := hmin [] (c :: bt) rfl (by simp)
    rw [List.cons_append, findSplit]
    rw [show m (c :: (bt ++ X)) = none from h0]
    rw [ih (fun b1 b2 hb hne2 => hmin (c :: b1) b2 (by simp [hb]) hne2)]
    rfl

theorem findSplit_none {α : Type} {m : Chars → Option (α × Chars)} {l : Chars}
    (h : findSplit m l = none) :
    ∀ x y, l = x ++ y → y ≠ [] → m y = none := by
  induction l with
  | nil =>
    intro x y hxy hne
    rcases List.append_eq_nil.mp hxy.symm with ⟨-, h2⟩
    exact absurd h2 hne
  | cons c t ih =>
    rw [findSplit] at h
    rcases hm : m (c :: t) with _ | p
    · rw [hm] at h
      simp only [Option.map_eq_none'] at h
      intro x y hxy hne
      rcases x with _ | ⟨d, xt⟩
      · simp only [List.nil_append] at hxy
        rw [← hxy]; exact hm
      · injection hxy with hd hxt
        exact ih h xt y hxt hne
    · rw [hm] at h
      rcases p with ⟨v0, r0⟩
      exact absurd h (by simp)

theorem lowN_eq_91 {n : Nat} (h : lowN n = 91) : n = 91 := by
  unfold lowN at h
  split at h <;> omega

theorem seqMatch_mem {ci : Bool} {p u : Chars} (h : seqMatch ci p u = true) :
    ∀ x ∈ u, ∃ y ∈ p, chEq ci y x = true := by
  induction p generalizing u with
  | nil =>
    cases u with
    | nil => simp
    | cons _ _ => simp [seqMatch] at h
  | cons c t ih =>
    cases u with
    | nil => simp [seqMatch] at h
    | cons d w =>
      simp only [seqMatch, Bool.and_eq_true] at h
      intro x hx
      rcases List.mem_cons.mp hx with rfl | hx
      · exact ⟨c, by simp, h.1⟩
      · obtain ⟨y, hy1, hy2⟩ := ih h.2 x hx
        exact ⟨y, by simp [hy1], hy2⟩

theorem successLit_rest_lowN :
    ∀ y ∈ toL "success::", lowN y.toNat ∈ ([115, 117, 99, 101, 58] : List Nat) := by
  decide

theorem chEq_true_iff (p c : Char) : chEq true p c = true ↔ lowN p.toNat = lowN c.toNat := by
  simp [chEq]

theorem seqMatch_successLit_head {u0 : Chars} (h : seqMatch true successLit u0 = true) :
    ∃ c u0t, u0 = c :: u0t ∧ c.toNat = 91 ∧ u0t ≠ []
      ∧ seqMatch true (toL "success::") u0t = true := by
  rw [show successLit = '[' :: toL "success::" from rfl] at h
  cases u0 with
  | nil => simp [seqMatch] at h
  | cons c u0t =>
    simp only [seqMatch, Bool.and_eq_true] at h
    have hc : c.toNat = 91 := by
      have h1 := (chEq_true_iff '[' c).mp h.1
      exact lowN_eq_91 (by rw [← h1]; rfl)
    have hlen := seqMatch_length h.2
    refine ⟨c, u0t, rfl, hc, ?_, h.2⟩
    intro he
    rw [he] at hlen
    simp [toL] at hlen

theorem seqMatch_successLit_tail {u0 : Chars} (h : seqMatch true successLit u0 = true) :
    ∀ x ∈ u0.tail, lowN x.toNat ∈ ([115, 117, 99, 101, 58] : List Nat) := by
  obtain ⟨c, u0t, rfl, -, -, ht⟩ := seqMatch_successLit_head h
  intro x hx
  obtain ⟨y, hy1, hy2⟩ := seqMatch_mem ht x (by simpa using hx)
  have hmm := successLit_rest_lowN y hy1
  rwa [(chEq_true_iff y x).mp hy2] at hmm

theorem matchNumTail_appendB {sg : Bool} {w X v r : Chars} {c0 : Char}
    (h : matchNumTail sg (w ++ X) = some (v, r)) (hX : X.head? = some c0)
    (hd : isDigitCh c0 = false) (hm : c0 ≠ '-') (hb : c0 ≠ ']') :
    ∃ w2, w = v ++ ']' :: w2 ∧ r = w2 ++ X := by
  obtain ⟨heq, hval⟩ := matchNumTail_sound h
  rcases List.append_eq_append_iff.mp heq with ⟨a', ha1, ha2⟩ | ⟨c', hc1, hc2⟩
  · -- v = w ++ a' and X = a' ++ ']' :: r
    rcases a' with _ | ⟨ah, a''⟩
    · simp only [List.nil_append] at ha2
      rw [ha2] at hX
      simp only [List.head?_cons, Option.some.injEq] at hX
      exact absurd hX.symm hb
    · rw [ha2] at hX
      simp only [List.cons_append, List.head?_cons, Option.some.injEq] at hX
      have hmem : ah ∈ v := by rw [ha1]; exact List.mem_append_right w (by simp)
      rcases validNum_mem hval hmem with hdig | hmin
      · rw [hX, hd] at hdig
        simp at hdig
      · rw [hX] at hmin
        exact absurd hmin hm
  · -- w = v ++ c' and ']' :: r = c' ++ X
    rcases c' with _ | ⟨ch, c''⟩
    · simp only [List.nil_append] at hc2
      rw [← hc2] at hX
      simp only [List.head?_cons, Option.some.injEq] at hX
      exact absurd hX.symm hb
    · injection hc2 with hh ht
      subst hh
      exact ⟨c'', by simpa using hc1, ht⟩

theorem matchSuccessAt_appendB {sg : Bool} {u X v r : Chars} {c0 : Char}
    (h : matchSuccessAt sg (u ++ X) = some (v, r)) (hu : u ≠ [])
    (hX : X.head? = some c0) (hc0 : c0.toNat = 91) :
    ∃ u0 u2, u = u0 ++ v ++ ']' :: u2 ∧ seqMatch true successLit u0 = true
      ∧ validNum sg v = true ∧ r = u2 ++ X := by
  unfold matchSuccessAt at h
  rcases hl : matchLitB true successLit (u ++ X) with _ | r1
  · rw [hl] at h; exact absurd h (by simp)
  · rw [hl] at h
    simp only [Option.some_bind] at h
    rcases matchLitB_append_cases hl with ⟨u1, u2a, h1, h2, h3⟩ | ⟨p1, p2, h1, h2, h3, h4⟩
    · subst h1
      rw [h3] at h
      obtain ⟨w2, hw1, hw2⟩ := matchNumTail_appendB h hX
        (by simp [isDigitCh, hc0])
        (by intro hcc; rw [hcc] at hc0; simp at hc0)
        (by intro hcc; rw [hcc] at hc0; simp at hc0)
      obtain ⟨-, hval⟩ := matchNumTail_sound h
      exact ⟨u1, w2, by rw [hw1]; simp, h2, hval, hw2⟩
    · exfalso
      have hp1 : p1 ≠ [] := by
        intro he
        rw [he] at h3
        have := seqMatch_length h3
        simp only [List.length_nil] at this
        exact hu (List.length_eq_zero.mp this.symm)
      rcases p2 with _ | ⟨p2h, p2t⟩
      · exact h2 rfl
      · have hp2h : p2h ∈ toL "success::" := by
          rcases p1 with _ | ⟨ph, p1t⟩
          · exact absurd rfl hp1
          · have : successLit = ph :: (p1t ++ p2h :: p2t) := by simpa using h1
            rw [show successLit = '[' :: toL "success::" from rfl] at this
            injection this with _ hrest
            rw [hrest]
            exact List.mem_append_right p1t (by simp)
        have hlow := successLit_rest_lowN p2h hp2h
        rcases X with _ | ⟨xh, xt⟩
        · simp at hX
        · simp only [List.head?_cons, Option.some.injEq] at hX
          simp only [matchLitB] at h4
          by_cases hce : chEq true p2h xh = true
          · have hlx := (chEq_true_iff p2h xh).mp hce
            rw [hlx, hX, hc0] at hlow
            simp [lowN] at hlow
          · rw [if_neg hce] at h4
            exact absurd h4 (by simp)

theorem matchSuccessAt_at_prefix {sg : Bool} {u0 v u2 : Chars}
    (hu : seqMatch true successLit u0 = true) (hv : validNum sg v = true)
    (Z : Chars) :
    matchSuccessAt sg ((u0 ++ v ++ ']' :: u2) ++ Z) = some (v, u2 ++ Z) := by
  have he : (u0 ++ v ++ ']' :: u2) ++ Z = u0 ++ v ++ ']' :: (u2 ++ Z) := by simp
  rw [he]
  exact matchSuccessAt_complete hu hv (u2 ++ Z)

theorem sTag_append_head (v w : Chars) : (sTag v ++ w).head? = some '[' := rfl

theorem sTag_append_ne (v w : Chars) : sTag v ++ w ≠ [] := by
  simp [sTag, successLit, toL]

theorem findSplit_success_replace {sg : Bool} {l b v a : Chars}
    (h : findSplit (matchSuccessAt sg) l = some (b, v, a)) {v' : Chars}
    (hv' : validNum sg v' = true) :
    findSplit (matchSuccessAt sg) (b ++ sTag v' ++ a) = some (b, v', a) := by
  obtain ⟨s, hs1, hs2, hs3⟩ := findSplit_sound h
  rw [List.append_assoc]
  apply findSplit_complete b (sTag_append_ne v' a)
  · have he : sTag v' ++ a = successLit ++ v' ++ ']' :: a := by simp [sTag]
    rw [he]
    exact matchSuccessAt_complete (seqMatch_refl true successLit) hv' a
  · intro b1 b2 hb hne2
    rcases hsome : matchSuccessAt sg (b2 ++ (sTag v' ++ a)) with _ | ⟨vv, rr⟩
    · rfl
    · exfalso
      obtain ⟨u0', u2', hb2, hsm, hval, -⟩ :=
        matchSuccessAt_appendB hsome hne2 (sTag_append_head v' a) rfl
      have hcontra := hs3 b1 b2 hb hne2
      rw [hb2, matchSuccessAt_at_prefix hsm hval s] at hcontra
      exact absurd hcontra (by simp)

theorem findSplit_success_unsigned {l b v a : Chars}
    (h : findSplit (matchSuccessAt true) l = some (b, v, a))
    (hne : v ≠ []) (hall : v.all isDigitCh = true) :
    findSplit (matchSuccessAt false) l = some (b, v, a) := by
  obtain ⟨s, hs1, hs2, hs3⟩ := findSplit_sound h
  obtain ⟨u0, hu1, hu2, -⟩ := matchSuccessAt_sound hs2
  subst hs1
  apply findSplit_complete b (by rw [hu1]; simp)
  · rw [hu1]
    exact matchSuccessAt_complete hu2 (validNum_unsigned hne hall false) a
  · intro b1 b2 hb hne2
    rcases hsome : matchSuccessAt false (b2 ++ s) with _ | ⟨vv, rr⟩
    · rfl
    · exfalso
      have := matchSuccessAt_weaken hsome
      rw [hs3 b1 b2 hb hne2] at this
      exact absurd this (by simp)

theorem digitCh_toNat (n : Nat) : (digitCh n).toNat = 48 + n % 10 := by
  have h10 : n % 10 = 0 ∨ n % 10 = 1 ∨ n % 10 = 2 ∨ n % 10 = 3 ∨ n % 10 = 4
      ∨ n % 10 = 5 ∨ n % 10 = 6 ∨ n % 10 = 7 ∨ n % 10 = 8 ∨ n % 10 = 9 := by omega
  unfold digitCh
  rcases h10 with h|h|h|h|h|h|h|h|h|h <;> rw [h] <;> decide

theorem parseIntDigits_append_digit (a : Chars) (c : Char) :
    parseIntDigits (a ++ [c]) = 10 * parseIntDigits a + (c.toNat - 48) := by
  unfold parseIntDigits
  rw [List.foldl_append]
  rfl

theorem parseIntDigits_natDigits (n : Nat) : parseIntDigits (natDigits n) = n := by
  induction n using Nat.strong_induction_on with
  | _ n ih =>
    rw [natDigits]
    by_cases h : n < 10
    · rw [dif_pos h]
      show parseIntDigits [digitCh n] = n
      unfold parseIntDigits
      simp only [List.foldl_cons, List.foldl_nil]
      rw [digitCh_toNat]
      omega
    · rw [dif_neg h]
      rw [parseIntDigits_append_digit]
      rw [ih (n / 10) (Nat.div_lt_self (by omega) (by omega))]
      rw [digitCh_toNat]
      omega

theorem natDigits_all (n : Nat) : (natDigits n).all isDigitCh = true := by
  induction n using Nat.strong_induction_on with
  | _ n ih =>
    rw [natDigits]
    by_cases h : n < 10
    · rw [dif_pos h]
      simp only [List.all_cons, List.all_nil, Bool.and_true, isDigitCh, digitCh_toNat]
      simp only [decide_eq_true_eq]
      omega
    · rw [dif_neg h]
      rw [List.all_append]
      rw [ih (n / 10) (Nat.div_lt_self (by omega) (by omega))]
      simp only [Bool.true_and, List.all_cons, List.all_nil, Bool.and_true, isDigitCh,
        digitCh_toNat]
      simp only [decide_eq_true_eq]
      omega

theorem natDigits_ne_nil (n : Nat) : natDigits n ≠ [] := by
  rw [natDigits]
  by_cases h : n < 10
  · rw [dif_pos h]; simp
  · rw [dif_neg h]; simp

theorem natDigits_validNum (sg : Bool) (n : Nat) : validNum sg (natDigits n) = true :=
  validNum_unsigned (natDigits_ne_nil n) (natDigits_all n) sg

theorem parseIntSigned_of_unsigned {v : Chars} (hne : v ≠ [])
    (hall : v.all isDigitCh = true) : parseIntSigned v = (parseIntDigits v : Int) := by
  rcases v with _ | ⟨c, t⟩
  · exact absurd rfl hne
  · simp only [List.all_cons, Bool.and_eq_true] at hall
    have hcm : c ≠ '-' := by
      intro he
      rw [he] at hall
      simpa [isDigitCh] using hall.1
    unfold parseIntSigned
    split
    · rename_i ds heq
      injection heq with h1 _
      exact absurd h1 hcm
    · rfl

theorem parseIntSigned_natDigits (n : Nat) : parseIntSigned (natDigits n) = (n : Int) := by
  rw [parseIntSigned_of_unsigned (natDigits_ne_nil n) (natDigits_all n),
    parseIntDigits_natDigits]

theorem trimEndL_append (u v : Chars) :
    trimEndL (u ++ v) = if trimEndL v = [] then trimEndL u else u ++ trimEndL v := by
  unfold trimEndL
  rw [List.reverse_append, List.dropWhile_append]
  by_cases h : (v.reverse.dropWhile isWsCh).isEmpty
  · have h' : (v.reverse.dropWhile isWsCh).reverse = ([] : Chars) := by
      rw [List.isEmpty_iff.mp h]; rfl
    rw [if_pos (by simpa using h), if_pos h']
  · have h' : (v.reverse.dropWhile isWsCh).reverse ≠ ([] : Chars) := by
      intro hx
      rw [List.reverse_eq_nil_iff] at hx
      rw [hx] at h
      simp at h
    rw [if_neg (by simpa using h), if_neg h']
    rw [List.reverse_append, List.reverse_reverse]

/-! ## Claim C6 -/

/-- C6 counterexample: a task line carrying an accumulated counter whose
value is negative. Incrementing appends a second annotation instead of
bumping the counter, and re-parsing yields the old value, not one greater:
accumulatedCount stays -3. -/
theorem c6_roundtrip_counterexample :
    (parseTask (toL "- [ ] m " ++ coinEmoji ++ toL " [success::-3]") (toL "f.md") 1).bind
        (fun t => t.accumulatedCount) = some (-3)
    ∧ (parseTask (incrementLine (toL "- [ ] m " ++ coinEmoji ++ toL " [success::-3]"))
        (toL "f.md") 1).bind (fun t => t.accumulatedCount) = some (-3)
    ∧ ¬ (parseTask (incrementLine (toL "- [ ] m " ++ coinEmoji ++ toL " [success::-3]"))
        (toL "f.md") 1).bind (fun t => t.accumulatedCount) = some (-3 + 1) := by
  exact ⟨by decide, by decide, by decide⟩

/-- C6 amended: for every task line whose first (signed) success annotation
is unsigned, [success::N], the increment mutation rewrites exactly that
annotation to [success::N+1], leaving the text before and after it
byte-identical, and the re-parsed counter value is exactly one greater than
before; for a line whose counter is negative the round trip fails as the
counterexample shows. -/
theorem c6_amended_increment_roundtrip (l b v a : Chars)
    (h : findSplit (matchSuccessAt true) l = some (b, v, a))
    (hall : v.all isDigitCh = true) :
    incrementLine l = b ++ sTag (natDigits (parseIntDigits v + 1)) ++ a
    ∧ rawAccumCount l = some (parseIntDigits v : Int)
    ∧ rawAccumCount (incrementLine l) = some ((parseIntDigits v : Int) + 1) := by
  have hne : v ≠ [] := by
    obtain ⟨s, hs1, hs2, -⟩ := findSplit_sound h
    obtain ⟨u0, -, -, hval⟩ := matchSuccessAt_sound hs2
    rcases validNum_true_elim hval with ⟨hne, -⟩ | ⟨ds, hv, -, -⟩
    · exact hne
    · rw [hv] at hall
      simpa [isDigitCh] using hall
  have hfalse := findSplit_success_unsigned h hne hall
  have hinc : incrementLine l = b ++ sTag (natDigits (parseIntDigits v + 1)) ++ a := by
    unfold incrementLine
    rw [hfalse]
  have hreparse :=
    findSplit_success_replace h (natDigits_validNum true (parseIntDigits v + 1))
  refine ⟨hinc, ?_, ?_⟩
  · simp [rawAccumCount, successCapture, h, parseIntSigned_of_unsigned hne hall]
  · rw [hinc]
    rw [List.append_assoc] at hreparse
    simp [rawAccumCount, successCapture, hreparse, parseIntSigned_natDigits]

/-- C6 witness: the spec's own scenario line, counter 7, instantiating the
amended round trip (the increment yields [success::8] and re-parses to 8). -/
theorem c6_amended_increment_roundtrip_witness :
    incrementLine (toL "- [ ] Meditate [accumulated::true] [success::7]")
      = toL "- [ ] Meditate [accumulated::true] " ++ sTag (natDigits (parseIntDigits ['7'] + 1)) ++ []
    ∧ rawAccumCount (toL "- [ ] Meditate [accumulated::true] [success::7]")
      = some (parseIntDigits ['7'] : Int)
    ∧ rawAccumCount (incrementLine (toL "- [ ] Meditate [accumulated::true] [success::7]"))
      = some ((parseIntDigits ['7'] : Int) + 1) :=
  c6_amended_increment_roundtrip
    (toL "- [ ] Meditate [accumulated::true] [success::7]")
    (toL "- [ ] Meditate [accumulated::true] ") ['7'] []
    (by decide) (by decide)

/-! ## Claim C10 -/

/-- C10: on a line with neither an unsigned success annotation nor an
unsigned trailing bracket count, increment appends a fresh counter of one
and decrement a counter of zero to the trimmed line (no failure); since the
mutation patterns are unsigned, a line whose only counter is the negative
[success::-3] takes the same appending branch, the old negative annotation
surviving next to the new one and still governing the parse. -/
theorem c10_append_branch :
    (∀ l : Chars, findSplit (matchSuccessAt false) l = none →
      findSplit (matchTrailAt false) l = none →
      incrementLine l = trimEndL l ++ (' ' :: sTag ['1'])
      ∧ decrementLine l = trimEndL l ++ (' ' :: sTag ['0']))
    ∧ incrementLine (toL "- [ ] m [success::-3]")
        = toL "- [ ] m [success::-3] [success::1]"
    ∧ containsSeq (toL "[success::-3]")
        (incrementLine (toL "- [ ] m [success::-3]")) = true
    ∧ rawAccumCount (incrementLine (toL "- [ ] m [success::-3]")) = some (-3)
    ∧ decrementLine (toL "- [ ] m [success::-3]")
        = toL "- [ ] m [success::-3] [success::0]" := by
  refine ⟨?_, by decide, by decide, by decide, by decide⟩
  intro l h1 h2
  constructor
  · unfold incrementLine
    rw [h1, h2]
  · unfold decrementLine
    rw [h1, h2]

theorem matchTrailAt_cons (sg : Bool) (t : Chars) :
    matchTrailAt sg ('[' :: t)
      = (matchNumTail sg t).bind fun p =>
          if p.2.all isWsCh then some (p.1, ([] : Chars)) else none := rfl

theorem matchTrailAt_sound {sg : Bool} {s v r : Chars}
    (h : matchTrailAt sg s = some (v, r)) :
    r = [] ∧ ∃ ws, s = '[' :: v ++ ']' :: ws ∧ ws.all isWsCh = true
      ∧ validNum sg v = true := by
  unfold matchTrailAt at h
  split at h
  · rename_i t
    rcases hnt : matchNumTail sg t with _ | ⟨v0, rest0⟩
    · rw [hnt] at h; exact absurd h (by simp)
    · rw [hnt] at h
      simp only [Option.some_bind] at h
      by_cases hws : rest0.all isWsCh = true
      · rw [if_pos hws] at h
        simp only [Option.some.injEq, Prod.mk.injEq] at h
        obtain ⟨h1, h2⟩ := h
        subst h1; subst h2
        obtain ⟨ht1, ht2⟩ := matchNumTail_sound hnt
        exact ⟨rfl, rest0, by rw [ht1]; simp, hws, ht2⟩
      · rw [if_neg hws] at h; exact absurd h (by simp)
  · exact absurd h (by simp)

theorem matchTrailAt_complete {sg : Bool} {v ws : Chars} (hv : validNum sg v = true)
    (hws : ws.all isWsCh = true) :
    matchTrailAt sg ('[' :: v ++ ']' :: ws) = some (v, []) := by
  rw [show ('[' :: v ++ ']' :: ws : Chars) = '[' :: (v ++ ']' :: ws) from rfl,
    matchTrailAt_cons, matchNumTail_complete hv ws]
  simp only [Option.some_bind]
  rw [if_pos hws]

theorem matchTrailAt_weaken {s : Chars} {p : Chars × Chars}
    (h : matchTrailAt false s = some p) : matchTrailAt true s = some p := by
  rcases p with ⟨v, r⟩
  obtain ⟨hr, ws, heq, hws, hval⟩ := matchTrailAt_sound h
  subst hr
  obtain ⟨hne, hall⟩ := validNum_false_elim hval
  rw [heq]
  exact matchTrailAt_complete (validNum_unsigned hne hall true) hws

theorem matchTrailAt_appendB {sg : Bool} {u X v r : Chars} {c0 : Char}
    (h : matchTrailAt sg (u ++ X) = some (v, r)) (hu : u ≠ [])
    (hX : X.head? = some c0) (hc0 : c0.toNat = 91) : False := by
  obtain ⟨-, ws, heq, hws, hval⟩ := matchTrailAt_sound h
  rcases u with _ | ⟨uh, u'⟩
  · exact hu rfl
  · have htl := congrArg List.tail heq
    simp only [List.cons_append, List.tail_cons] at htl
    rcases X with _ | ⟨xh, xt⟩
    · simp at hX
    · simp only [List.head?_cons, Option.some.injEq] at hX
      have hmem : xh ∈ v ++ ']' :: ws := by
        rw [← htl]
        exact List.mem_append_right u' (by simp)
      rcases List.mem_append.mp hmem with hv1 | hv2
      · rcases validNum_mem hval hv1 with hd | hm
        · rw [hX] at hd
          simp only [isDigitCh, hc0, decide_eq_true_eq] at hd
          omega
        · rw [hX] at hm
          rw [hm] at hc0
          simp at hc0
      · rcases List.mem_cons.mp hv2 with heq2 | hwsm
        · rw [hX] at heq2
          rw [heq2] at hc0
          simp at hc0
        · have := List.all_eq_true.mp hws xh hwsm
          rw [hX] at this
          simp only [isWsCh, hc0, decide_eq_true_eq] at this
          omega

theorem sTag_head (v : Chars) : (sTag v).head? = some '[' := rfl

theorem matchSuccessAt_false_signed {u0 z : Chars}
    (hu : seqMatch true successLit u0 = true) :
    matchSuccessAt false (u0 ++ '-' :: z) = none := by
  unfold matchSuccessAt
  rw [matchLitB_complete hu]
  simp only [Option.some_bind]
  rw [show matchNumTail false ('-' :: z) = numClose ('-' :: z) from by
    unfold matchNumTail; split <;> simp_all]
  unfold numClose
  rw [show takeDigits ('-' :: z) = ([], '-' :: z) from by simp [takeDigits, isDigitCh]]
  simp

theorem findSplit_success_false_none {l : Chars}
    (h : findSplit (matchSuccessAt true) l = none) :
    findSplit (matchSuccessAt false) l = none := by
  rcases hf : findSplit (matchSuccessAt false) l with _ | ⟨B, e, A⟩
  · rfl
  · exfalso
    obtain ⟨s', h1, h2, -⟩ := findSplit_sound hf
    obtain ⟨u0, hs', -, -⟩ := matchSuccessAt_sound h2
    have hw := matchSuccessAt_weaken h2
    rw [findSplit_none h B s' h1 (by rw [hs']; simp)] at hw
    exact absurd hw (by simp)

theorem decrement_success_unsigned {l b v a : Chars}
    (h : findSplit (matchSuccessAt true) l = some (b, v, a))
    (hne : v ≠ []) (hall : v.all isDigitCh = true) :
    rawAccumCount (decrementLine l) = some ((parseIntDigits v - 1 : Nat) : Int) := by
  have hfalse := findSplit_success_unsigned h hne hall
  have hdec : decrementLine l = b ++ sTag (natDigits (parseIntDigits v - 1)) ++ a := by
    unfold decrementLine
    rw [hfalse]
  have hreparse :=
    findSplit_success_replace h (natDigits_validNum true (parseIntDigits v - 1))
  rw [hdec]
  rw [List.append_assoc] at hreparse
  simp [rawAccumCount, successCapture, hreparse, parseIntSigned_natDigits]

theorem decrement_trail_unsigned {l Bt E r : Chars}
    (hnos : findSplit (matchSuccessAt true) l = none)
    (hf : findSplit (matchTrailAt true) l = some (Bt, E, r))
    (hne : E ≠ []) (hall : E.all isDigitCh = true) :
    rawAccumCount (decrementLine l) = some ((parseIntDigits E - 1 : Nat) : Int) := by
  obtain ⟨st, hl, hm, hmin⟩ := findSplit_sound hf
  obtain ⟨hr0, ws, hst, hws, hval⟩ := matchTrailAt_sound hm
  subst hr0
  subst hl
  have hffalse : findSplit (matchTrailAt false) (Bt ++ st) = some (Bt, E, []) := by
    apply findSplit_complete Bt (by rw [hst]; simp)
    · rw [hst]
      exact matchTrailAt_complete (validNum_unsigned hne hall false) hws
    · intro b1 b2 hb hne2
      rcases hx : matchTrailAt false (b2 ++ st) with _ | p
      · rfl
      · exfalso
        have hw := matchTrailAt_weaken hx
        rw [hmin b1 b2 hb hne2] at hw
        exact absurd hw (by simp)
  have hnosF := findSplit_success_false_none hnos
  have hdec : decrementLine (Bt ++ st)
      = Bt ++ sTag (natDigits (parseIntDigits E - 1)) := by
    unfold decrementLine
    rw [hnosF, hffalse]
  rw [hdec]
  have hrep : findSplit (matchSuccessAt true)
      (Bt ++ sTag (natDigits (parseIntDigits E - 1)))
      = some (Bt, natDigits (parseIntDigits E - 1), []) := by
    apply findSplit_complete Bt (by simp [sTag, successLit, toL])
    · have he : sTag (natDigits (parseIntDigits E - 1))
          = successLit ++ natDigits (parseIntDigits E - 1) ++ ']' :: [] := by
        simp [sTag]
      rw [he]
      exact matchSuccessAt_complete (seqMatch_refl true successLit)
        (natDigits_validNum true _) []
    · intro b1 b2 hb hne2
      rcases hx : matchSuccessAt true (b2 ++ sTag (natDigits (parseIntDigits E - 1)))
        with _ | ⟨vv, rr⟩
      · rfl
      · exfalso
        obtain ⟨u0', u2', hb2, hsm, hvv, -⟩ :=
          matchSuccessAt_appendB hx hne2 (sTag_head _) rfl
        have hcontra := findSplit_none hnos b1 (b2 ++ st)
          (by rw [hb]; simp) (by simp [hst])
        rw [hb2, matchSuccessAt_at_prefix hsm hvv st] at hcontra
        exact absurd hcontra (by simp)
  simp [rawAccumCount, successCapture, hrep, parseIntSigned_natDigits]

theorem trimEndL_rbracket (x a : Chars) :
    trimEndL ((x ++ [']']) ++ a) = (x ++ [']']) ++ trimEndL a := by
  rw [trimEndL_append]
  by_cases h : trimEndL a = []
  · rw [if_pos h, h]
    rw [trimEndL_append x [']']]
    rw [if_neg (by decide)]
    rw [show trimEndL [']'] = [']'] from by decide]
    simp
  · rw [if_neg h]

theorem trimEndL_all_ws {ws : Chars} (h : ws.all isWsCh = true) : trimEndL ws = [] := by
  unfold trimEndL
  have hd : ws.reverse.dropWhile isWsCh = [] :=
    List.dropWhile_eq_nil_iff.mpr
      (fun x hx => List.all_eq_true.mp h x (List.mem_reverse.mp hx))
  rw [hd]
  rfl

theorem decrement_success_signed_append {l b v a : Chars}
    (h : findSplit (matchSuccessAt true) l = some (b, v, a))
    (hnoU : findSplit (matchSuccessAt false) l = none)
    (hnoT : findSplit (matchTrailAt false) l = none) :
    rawAccumCount (decrementLine l) = some (parseIntSigned v) := by
  obtain ⟨s, hl, hm, hmin⟩ := findSplit_sound h
  obtain ⟨u0, hs, hu0, hval⟩ := matchSuccessAt_sound hm
  subst hl
  have hdec : decrementLine (b ++ s) = trimEndL (b ++ s) ++ (' ' :: sTag ['0']) := by
    unfold decrementLine
    rw [hnoU, hnoT]
  have hsplit : b ++ s = ((b ++ u0 ++ v) ++ [']']) ++ a := by rw [hs]; simp
  have htrim : trimEndL (b ++ s) = ((b ++ u0 ++ v) ++ [']']) ++ trimEndL a := by
    rw [hsplit, trimEndL_rbracket]
  have hnew : decrementLine (b ++ s)
      = b ++ (u0 ++ v ++ ']' :: (trimEndL a ++ ' ' :: sTag ['0'])) := by
    rw [hdec, htrim]
    simp
  rw [hnew]
  obtain ⟨c0, u0t, hu0eq, hc0, hu0t, -⟩ := seqMatch_successLit_head hu0
  have hrep : findSplit (matchSuccessAt true)
      (b ++ (u0 ++ v ++ ']' :: (trimEndL a ++ ' ' :: sTag ['0'])))
      = some (b, v, trimEndL a ++ ' ' :: sTag ['0']) := by
    apply findSplit_complete b (by rw [hu0eq]; simp)
    · exact matchSuccessAt_complete hu0 hval _
    · intro b1 b2 hb hne2
      rcases hx : matchSuccessAt true
          (b2 ++ (u0 ++ v ++ ']' :: (trimEndL a ++ ' ' :: sTag ['0']))) with _ | ⟨vv, rr⟩
      · rfl
      · exfalso
        obtain ⟨u0', u2', hb2, hsm, hvv, -⟩ := matchSuccessAt_appendB hx hne2
          (by rw [hu0eq]; rfl) hc0
        have hcontra := hmin b1 b2 hb hne2
        rw [hb2, matchSuccessAt_at_prefix hsm hvv s] at hcontra
        exact absurd hcontra (by simp)
  simp only [List.append_assoc] at hrep
  simp [rawAccumCount, successCapture, hrep]

theorem lowN_letters_facts {x : Char}
    (hx : lowN x.toNat ∈ ([115, 117, 99, 101, 58] : List Nat)) :
    x.toNat ≠ 91 ∧ isDigitCh x = false ∧ x ≠ ']' ∧ x ≠ '-' := by
  simp only [List.mem_cons, List.not_mem_nil, or_false] at hx
  unfold lowN at hx
  refine ⟨?_, ?_, ?_, ?_⟩
  · intro he; rw [he] at hx; simp at hx
  · simp only [isDigitCh, decide_eq_false_iff_not]
    intro he
    split at hx <;> omega
  · intro he; rw [he] at hx; simp [show (']').toNat = 93 from rfl] at hx
  · intro he; rw [he] at hx; simp [show ('-').toNat = 45 from rfl] at hx

theorem P_tail_no_91 {u0 v : Chars} (hu0 : seqMatch true successLit u0 = true)
    (hval : validNum true v = true) {x : Char}
    (hx : x ∈ (u0 ++ v ++ [']']).tail) (h91 : x.toNat = 91) : False := by
  obtain ⟨c0, u0t, hu0eq, -, -, -⟩ := seqMatch_successLit_head hu0
  have hx' : x ∈ u0t ++ (v ++ [']']) := by
    rw [hu0eq] at hx
    simpa using hx
  rcases List.mem_append.mp hx' with hx1 | hx2
  · have hlow := seqMatch_successLit_tail hu0 x (by rw [hu0eq]; simpa using hx1)
    exact (lowN_letters_facts hlow).1 h91
  · rcases List.mem_append.mp hx2 with hx3 | hx4
    · rcases validNum_mem hval hx3 with hd | hm
      · rw [show isDigitCh x = decide (48 ≤ x.toNat ∧ x.toNat ≤ 57) from rfl, h91] at hd
        simp at hd
      · rw [hm] at h91; simp at h91
    · have hb : x = ']' := by simpa using hx4
      rw [hb] at h91; simp at h91

theorem trail_not_at_success {sg : Bool} {u0 v a : Chars} {p : Chars × Chars}
    (hu0 : seqMatch true successLit u0 = true) (hval : validNum true v = true)
    (h : matchTrailAt sg (u0 ++ v ++ ']' :: a) = some p) : False := by
  rcases p with ⟨vv, rr⟩
  obtain ⟨-, ws, heq, hws, hvv⟩ := matchTrailAt_sound h
  obtain ⟨c0, u0t, hu0eq, -, hu0tne, -⟩ := seqMatch_successLit_head hu0
  rcases u0t with _ | ⟨c1, u0tt⟩
  · exact hu0tne rfl
  · have hc1 := seqMatch_successLit_tail hu0 c1 (by rw [hu0eq]; simp)
    have htl := congrArg List.tail heq
    rw [hu0eq] at htl
    simp only [List.cons_append, List.tail_cons, List.append_assoc] at htl
    rcases vv with _ | ⟨wh, wt⟩
    · simp only [List.nil_append] at htl
      have h1 : c1 = ']' := by
        have h2 := congrArg List.head? htl
        simpa using h2
      rw [h1] at hc1
      exact absurd hc1 (by decide)
    · simp only [List.cons_append] at htl
      have h1 : c1 = wh := by
        have h2 := congrArg List.head? htl
        simpa using h2
      rcases validNum_mem hvv (show wh ∈ wh :: wt by simp) with hd | hm
      · obtain ⟨-, hd2, -, -⟩ := lowN_letters_facts (h1 ▸ hc1)
        rw [hd] at hd2
        exact absurd hd2 (by simp)
      · obtain ⟨-, -, -, hm2⟩ := lowN_letters_facts (h1 ▸ hc1)
        exact hm2 hm

theorem decrement_success_signed_far {l b v a B e A : Chars}
    (h : findSplit (matchSuccessAt true) l = some (b, v, a))
    (hsgn : ∃ ds, v = '-' :: ds)
    (hU : findSplit (matchSuccessAt false) l = some (B, e, A)) :
    rawAccumCount (decrementLine l) = some (parseIntSigned v) := by
  obtain ⟨s, hl, hm, hmin⟩ := findSplit_sound h
  obtain ⟨u0, hs, hu0, hval⟩ := matchSuccessAt_sound hm
  obtain ⟨s', hl', hm', hmin'⟩ := findSplit_sound hU
  obtain ⟨ds, hds⟩ := hsgn
  subst hl
  have hnotat : ∀ q : Chars × Chars, matchSuccessAt false s = some q → False := by
    intro q hq
    rw [hs, hds] at hq
    rw [show u0 ++ '-' :: ds ++ ']' :: a = u0 ++ '-' :: (ds ++ ']' :: a) from by simp] at hq
    rw [matchSuccessAt_false_signed hu0] at hq
    exact absurd hq (by simp)
  have hBsplit : ∃ m, B = b ++ m ∧ s = m ++ s' := by
    rcases List.append_eq_append_iff.mp hl' with ⟨m, h1, h2⟩ | ⟨m, h1, h2⟩
    · exact ⟨m, h1, h2⟩
    · rcases m with _ | ⟨mh, mt⟩
      · exact ⟨[], by simp [h1], by simpa using h2.symm⟩
      · exfalso
        have hw := matchSuccessAt_weaken hm'
        rw [h2] at hw
        rw [hmin B (mh :: mt) h1 (by simp)] at hw
        exact absurd hw (by simp)
  obtain ⟨m, hB, hsm2⟩ := hBsplit
  have hstep : ∃ a1, m = (u0 ++ v ++ [']']) ++ a1 ∧ a = a1 ++ s' := by
    have hPa : (u0 ++ v ++ [']']) ++ a = m ++ s' := by rw [← hsm2, hs]; simp
    rcases List.append_eq_append_iff.mp hPa with ⟨a1, h1, h2⟩ | ⟨p2, h1, h2⟩
    · exact ⟨a1, h1, h2⟩
    · rcases p2 with _ | ⟨ph, p2t⟩
      · exact ⟨[], by simpa using h1.symm, by simpa using h2.symm⟩
      · exfalso
        obtain ⟨u0', hs', hu0', hval'⟩ := matchSuccessAt_sound hm'
        obtain ⟨c0', u0t', hu0eq', hc0', -, -⟩ := seqMatch_successLit_head hu0'
        have hhead : ph = c0' := by
          have h3 := congrArg List.head? h2
          rw [hs', hu0eq'] at h3
          exact (by simpa using h3 : c0' = ph).symm
        rcases m with _ | ⟨mh, mt⟩
        · have hse : s' = s := by
            rw [h2, hs]
            simp only [List.nil_append] at h1
            rw [← h1]
            simp
          rw [hse] at hm'
          exact hnotat _ hm'
        · have htail := congrArg List.tail h1
          simp only [List.cons_append, List.tail_cons] at htail
          have hmem : ph ∈ (u0 ++ v ++ [']']).tail := by
            rw [htail]
            exact List.mem_append_right mt (by simp)
          exact P_tail_no_91 hu0 hval hmem (hhead ▸ hc0')
  obtain ⟨a1, hma, ha⟩ := hstep
  have hdec : decrementLine (b ++ s)
      = B ++ sTag (natDigits (parseIntDigits e - 1)) ++ A := by
    unfold decrementLine
    rw [hU]
  have hshape : B ++ sTag (natDigits (parseIntDigits e - 1)) ++ A
      = b ++ (u0 ++ v ++ ']' :: (a1 ++ (sTag (natDigits (parseIntDigits e - 1)) ++ A))) := by
    rw [hB, hma]
    simp
  obtain ⟨c0, u0t, hu0eq, hc0, -, -⟩ := seqMatch_successLit_head hu0
  have hrep : findSplit (matchSuccessAt true)
      (b ++ (u0 ++ v ++ ']' :: (a1 ++ (sTag (natDigits (parseIntDigits e - 1)) ++ A))))
      = some (b, v, a1 ++ (sTag (natDigits (parseIntDigits e - 1)) ++ A)) := by
    apply findSplit_complete b (by rw [hu0eq]; simp)
    · exact matchSuccessAt_complete hu0 hval _
    · intro b1 b2 hb hne2
      rcases hx : matchSuccessAt true
          (b2 ++ (u0 ++ v ++ ']' :: (a1 ++ (sTag (natDigits (parseIntDigits e - 1)) ++ A))))
        with _ | ⟨vv, rr⟩
      · rfl
      · exfalso
        obtain ⟨u0x, u2x, hb2, hsmx, hvvx, -⟩ := matchSuccessAt_appendB hx hne2
          (by rw [hu0eq]; rfl) hc0
        have hcontra := hmin b1 b2 hb hne2
        rw [hb2, matchSuccessAt_at_prefix hsmx hvvx s] at hcontra
        exact absurd hcontra (by simp)
  rw [hdec, hshape]
  simp only [List.append_assoc] at hrep
  simp [rawAccumCount, successCapture, hrep]

theorem decrement_success_signed_trailfar {l b v a Bt E r2 : Chars}
    (h : findSplit (matchSuccessAt true) l = some (b, v, a))
    (hnoU : findSplit (matchSuccessAt false) l = none)
    (hT : findSplit (matchTrailAt false) l = some (Bt, E, r2)) :
    rawAccumCount (decrementLine l) = some (parseIntSigned v) := by
  obtain ⟨s, hl, hm, hmin⟩ := findSplit_sound h
  obtain ⟨u0, hs, hu0, hval⟩ := matchSuccessAt_sound hm
  obtain ⟨s', hl', hm', hmin'⟩ := findSplit_sound hT
  subst hl
  have hnotat : ∀ q : Chars × Chars, matchTrailAt false s = some q → False := by
    intro q hq
    rw [hs] at hq
    exact trail_not_at_success hu0 hval hq
  have hBsplit : ∃ m, Bt = b ++ m ∧ s = m ++ s' := by
    rcases List.append_eq_append_iff.mp hl' with ⟨m, h1, h2⟩ | ⟨m, h1, h2⟩
    · exact ⟨m, h1, h2⟩
    · rcases m with _ | ⟨mh, mt⟩
      · exact ⟨[], by simp [h1], by simpa using h2.symm⟩
      · exfalso
        obtain ⟨c0, u0t, hu0eq, hc0, -, -⟩ := seqMatch_successLit_head hu0
        have hsh : s.head? = some c0 := by rw [hs, hu0eq]; rfl
        rw [h2] at hm'
        exact matchTrailAt_appendB hm' (by simp) hsh hc0
  obtain ⟨m, hB, hsm2⟩ := hBsplit
  obtain ⟨-, ws, hst, hws, hvalE⟩ := matchTrailAt_sound hm'
  have hstep : ∃ a1, m = (u0 ++ v ++ [']']) ++ a1 ∧ a = a1 ++ s' := by
    have hPa : (u0 ++ v ++ [']']) ++ a = m ++ s' := by rw [← hsm2, hs]; simp
    rcases List.append_eq_append_iff.mp hPa with ⟨a1, h1, h2⟩ | ⟨p2, h1, h2⟩
    · exact ⟨a1, h1, h2⟩
    · rcases p2 with _ | ⟨ph, p2t⟩
      · exact ⟨[], by simpa using h1.symm, by simpa using h2.symm⟩
      · exfalso
        have hhead : ph = '[' := by
          have h3 := congrArg List.head? h2
          rw [hst] at h3
          exact (by simpa using h3 : '[' = ph).symm
        rcases m with _ | ⟨mh, mt⟩
        · have hse : s' = s := by
            rw [h2, hs]
            simp only [List.nil_append] at h1
            rw [← h1]
            simp
          rw [hse] at hm'
          exact hnotat _ hm'
        · have htail := congrArg List.tail h1
          simp only [List.cons_append, List.tail_cons] at htail
          have hmem : ph ∈ (u0 ++ v ++ [']']).tail := by
            rw [htail]
            exact List.mem_append_right mt (by simp)
          exact P_tail_no_91 hu0 hval hmem (by rw [hhead]; rfl)
  obtain ⟨a1, hma, ha⟩ := hstep
  have hdec : decrementLine (b ++ s)
      = Bt ++ sTag (natDigits (parseIntDigits E - 1)) := by
    unfold decrementLine
    rw [hnoU, hT]
  have hshape : Bt ++ sTag (natDigits (parseIntDigits E - 1))
      = b ++ (u0 ++ v ++ ']' :: (a1 ++ sTag (natDigits (parseIntDigits E - 1)))) := by
    rw [hB, hma]
    simp
  obtain ⟨c0, u0t, hu0eq, hc0, -, -⟩ := seqMatch_successLit_head hu0
  have hrep : findSplit (matchSuccessAt true)
      (b ++ (u0 ++ v ++ ']' :: (a1 ++ sTag (natDigits (parseIntDigits E - 1)))))
      = some (b, v, a1 ++ sTag (natDigits (parseIntDigits E - 1))) := by
    apply findSplit_complete b (by rw [hu0eq]; simp)
    · exact matchSuccessAt_complete hu0 hval _
    · intro b1 b2 hb hne2
      rcases hx : matchSuccessAt true
          (b2 ++ (u0 ++ v ++ ']' :: (a1 ++ sTag (natDigits (parseIntDigits E - 1)))))
        with _ | ⟨vv, rr⟩
      · rfl
      · exfalso
        obtain ⟨u0x, u2x, hb2, hsmx, hvvx, -⟩ := matchSuccessAt_appendB hx hne2
          (by rw [hu0eq]; rfl) hc0
        have hcontra := hmin b1 b2 hb hne2
        rw [hb2, matchSuccessAt_at_prefix hsmx hvvx s] at hcontra
        exact absurd hcontra (by simp)
  rw [hdec, hshape]
  simp only [List.append_assoc] at hrep
  simp [rawAccumCount, successCapture, hrep]

theorem matchTrailAt_false_minus (z : Chars) :
    matchTrailAt false ('[' :: '-' :: z) = none := by
  rw [matchTrailAt_cons]
  rw [show matchNumTail false ('-' :: z) = numClose ('-' :: z) from by
    unfold matchNumTail; split <;> simp_all]
  unfold numClose
  rw [show takeDigits ('-' :: z) = ([], '-' :: z) from by simp [takeDigits, isDigitCh]]
  simp

theorem decrement_trail_signed {l Bt ds r : Chars}
    (hnos : findSplit (matchSuccessAt true) l = none)
    (hf : findSplit (matchTrailAt true) l = some (Bt, '-' :: ds, r)) :
    rawAccumCount (decrementLine l) = some 0 := by
  obtain ⟨st, hl, hm, hmin⟩ := findSplit_sound hf
  obtain ⟨hr0, ws, hst, hws, hval⟩ := matchTrailAt_sound hm
  subst hl
  have hstF : matchTrailAt false st = none := by
    rw [show st = '[' :: '-' :: (ds ++ ']' :: ws) from by rw [hst]; simp]
    exact matchTrailAt_false_minus _
  have hnoT : findSplit (matchTrailAt false) (Bt ++ st) = none := by
    rcases hx : findSplit (matchTrailAt false) (Bt ++ st) with _ | ⟨B2, e2, r2⟩
    · rfl
    · exfalso
      obtain ⟨s2, hl2, hm2, -⟩ := findSplit_sound hx
      obtain ⟨-, ws2, hs2, -, -⟩ := matchTrailAt_sound hm2
      rcases List.append_eq_append_iff.mp hl2 with ⟨m, hB2, hstm⟩ | ⟨m, hBt, hs2m⟩
      · rcases m with _ | ⟨mh, mt⟩
        · simp only [List.nil_append] at hstm
          rw [← hstm, hstF] at hm2
          exact absurd hm2 (by simp)
        · rw [hstm] at hm
          exact matchTrailAt_appendB hm (by simp)
            (show s2.head? = some '[' from by rw [hs2]; rfl) rfl
      · rcases m with _ | ⟨mh, mt⟩
        · simp only [List.append_nil] at hBt
          simp only [List.nil_append] at hs2m
          rw [hs2m, hstF] at hm2
          exact absurd hm2 (by simp)
        · have hw := matchTrailAt_weaken hm2
          rw [hs2m, hmin B2 (mh :: mt) hBt (by simp)] at hw
          exact absurd hw (by simp)
  have hnosF := findSplit_success_false_none hnos
  have hdec : decrementLine (Bt ++ st) = trimEndL (Bt ++ st) ++ (' ' :: sTag ['0']) := by
    unfold decrementLine
    rw [hnosF, hnoT]
  have hsplit : Bt ++ st = ((Bt ++ '[' :: ('-' :: ds)) ++ [']']) ++ ws := by
    rw [hst]; simp
  have htrim : trimEndL (Bt ++ st) = (Bt ++ '[' :: ('-' :: ds)) ++ [']'] := by
    rw [hsplit, trimEndL_rbracket, trimEndL_all_ws hws]
    simp
  have hrep : findSplit (matchSuccessAt true)
      ((((Bt ++ '[' :: ('-' :: ds)) ++ [']']) ++ [' ']) ++ sTag ['0'])
      = some (((Bt ++ '[' :: ('-' :: ds)) ++ [']']) ++ [' '], ['0'], []) := by
    apply findSplit_complete _ (by simp [sTag, successLit, toL])
    · rw [show sTag ['0'] = successLit ++ ['0'] ++ ']' :: ([] : Chars) from by simp [sTag]]
      exact matchSuccessAt_complete (seqMatch_refl true successLit) (by decide) []
    · intro b1 b2 hb hne2
      rcases hx : matchSuccessAt true (b2 ++ sTag ['0']) with _ | ⟨vv, rr⟩
      · rfl
      · exfalso
        obtain ⟨u0', u2', hb2, hsm, hvv, -⟩ :=
          matchSuccessAt_appendB hx hne2 (sTag_head _) rfl
        rw [hb2] at hb
        rcases List.eq_nil_or_concat u2' with h0 | ⟨u2'', clast, hcat⟩
        · rw [h0] at hb
          have hlast := congrArg (fun t => t.reverse.head?) hb
          simp at hlast
        · rw [hcat] at hb
          have hb' : ((Bt ++ '[' :: ('-' :: ds)) ++ [']']) ++ [' ']
              = (b1 ++ (u0' ++ vv ++ ']' :: u2'')) ++ [clast] := by
            rw [hb]; simp
          obtain ⟨hP, -⟩ := List.append_inj' hb' rfl
          have hmm := findSplit_none hnos b1 ((u0' ++ vv ++ ']' :: u2'') ++ ws)
            (by rw [hsplit, hP]; simp)
            (by simp [show u0' ≠ [] from by
              intro he
              rw [he] at hsm
              have := seqMatch_length hsm
              simp [successLit, toL] at this])
          rw [ matchSuccessAt_at_prefix hsm hvv ws] at hmm
          exact absurd hmm (by simp)
  rw [hdec, htrim, show ((Bt ++ '[' :: ('-' :: ds)) ++ [']']) ++ (' ' :: sTag ['0'])
    = (((Bt ++ '[' :: ('-' :: ds)) ++ [']']) ++ [' ']) ++ sTag ['0'] from by simp]
  unfold rawAccumCount successCapture
  rw [hrep]
  rfl

/-! ## Claim C7 -/

/-- C7: for every task line whose counter annotation parses to a
non-negative value N, the decrement mutation rewrites the line so that it
re-parses to max(0, N - 1): the counter is floored at zero and a decrement
starting from a non-negative counter never produces a negative value. -/
theorem c7_decrement_floor (l : Chars) (N : Int)
    (h : rawAccumCount l = some N) (hN : 0 ≤ N) :
    rawAccumCount (decrementLine l) = some (max (N - 1) 0) := by
  rcases hsc : findSplit (matchSuccessAt true) l with _ | ⟨b, v, a⟩
  · rcases htc : findSplit (matchTrailAt true) l with _ | ⟨Bt, E, r⟩
    · simp [rawAccumCount, successCapture, trailCapture, hsc, htc] at h
    · have hN' : N = parseIntSigned E := by
        simp [rawAccumCount, successCapture, trailCapture, hsc, htc] at h
        exact h.symm
      obtain ⟨st, hl2, hm2, -⟩ := findSplit_sound htc
      obtain ⟨-, ws, -, -, hvalE⟩ := matchTrailAt_sound hm2
      rcases validNum_true_elim hvalE with ⟨hne, hall⟩ | ⟨ds, hE, -, -⟩
      · have hres := decrement_trail_unsigned hsc htc hne hall
        rw [hres, hN', parseIntSigned_of_unsigned hne hall]
        congr 1
        omega
      · subst hE
        have hres := decrement_trail_signed hsc htc
        rw [hres, hN']
        have hsg : parseIntSigned ('-' :: ds) = -(parseIntDigits ds : Int) := rfl
        rw [hN', hsg] at hN
        rw [hsg]
        congr 1
        omega
  · have hNv : N = parseIntSigned v := by
      simp [rawAccumCount, successCapture, hsc] at h
      exact h.symm
    obtain ⟨s, hl2, hm2, -⟩ := findSplit_sound hsc
    obtain ⟨u0, -, -, hval⟩ := matchSuccessAt_sound hm2
    rcases validNum_true_elim hval with ⟨hne, hall⟩ | ⟨ds, hv, -, -⟩
    · have hres := decrement_success_unsigned hsc hne hall
      rw [hres, hNv, parseIntSigned_of_unsigned hne hall]
      congr 1
      omega
    · have hsg : parseIntSigned v = -(parseIntDigits ds : Int) := by rw [hv]; rfl
      have hfinal : rawAccumCount (decrementLine l) = some (parseIntSigned v) := by
        rcases hU : findSplit (matchSuccessAt false) l with _ | ⟨B, e, A⟩
        · rcases hT : findSplit (matchTrailAt false) l with _ | ⟨Bt2, E2, r2⟩
          · exact decrement_success_signed_append hsc hU hT
          · exact decrement_success_signed_trailfar hsc hU hT
        · exact decrement_success_signed_far hsc ⟨ds, hv⟩ hU
      rw [hNv, hsg] at hN
      rw [hfinal, hNv, hsg]
      congr 1
      omega

/-- C7 witness: decrementing the line "- [ ] m [success::5]", whose counter
parses to 5, rewrites it so that it re-parses to max(5 - 1, 0) = 4. -/
theorem c7_decrement_floor_witness :
    rawAccumCount (decrementLine (toL "- [ ] m [success::5]"))
      = some (max ((5 : Int) - 1) 0) :=
  c7_decrement_floor (toL "- [ ] m [success::5]") 5 (by decide) (by decide)
